import Mathlib

/-!
# NHP Agent Execution Engine — verification development

A shallow embedding of the execution engine in `src/lib/executor.ts` of the
NHP repository: JSON-like values, the Run/Step/Log data model, input-mapping
resolution, retry/timeout wrapping, plan building and sanitization, the
sequential and parallel schedulers, and result consolidation.

Modelling conventions:
* JavaScript values flowing through the engine are modelled by `NHP.JVal`
  (JSON values); a JS value that may be `undefined` is `Option JVal`.
* JS objects are association lists in insertion order; `jrecSet` models the
  object-spread update (replace in place, else append), matching JS semantics.
* Promises are modelled by `NHP.AsyncResult`: either the operation resolves
  after a duration (with a value or a thrown error message), or it never
  resolves.  Durations let us account for elapsed time deterministically;
  sleeps and retries add their delays.
* The outbound OpenRouter client is an external capability (spec §6); its
  behaviour is an oracle (`ClientAttempt` per invocation attempt,
  `ClientModel` per run).  The platform `JSON.parse` of a free-form chat
  reply is carried as the `parsed` field of the oracle's reply.
* Callback side effects (`onLog`/`onStepUpdate`/`onRunUpdate`) are modelled
  by the final accumulated state (log list, step records, final run fields);
  generated ids and ISO timestamps are elided as nondeterministic.
* The parallel `while` loop is given explicit fuel; `none` means the loop
  did not finish within the given fuel (used to exhibit divergence).
  A `Promise.all` fan-out wave is serialized left to right; no claim in
  scope depends on intra-wave interleaving.
-/

namespace NHP

/-- JSON-like values: the dynamic values the engine passes around. -/
inductive JVal where
  | null
  | bool (b : Bool)
  | num (n : Int)
  | str (s : String)
  | arr (elems : List JVal)
  | obj (fields : List (String × JVal))

/-- JavaScript truthiness of a defined value. -/
def JVal.truthy : JVal → Bool
  | .null => false
  | .bool b => b
  | .num n => n != 0
  | .str s => s != ""
  | .arr _ => true
  | .obj _ => true

/-- Truthiness of a possibly-`undefined` JS value. -/
def jsTruthy : Option JVal → Bool
  | some v => v.truthy
  | none => false

/-- JS object field read (`o[k]`): `none` models `undefined`. -/
def jrecGet (fields : List (String × JVal)) (k : String) : Option JVal :=
  (fields.find? (fun p => p.1 == k)).map (fun p => p.2)

/-- JS object field write / spread override: replaces the value in place if
the key exists, otherwise appends the key (JS property-order semantics). -/
def jrecSet (fields : List (String × JVal)) (k : String) (v : JVal) :
    List (String × JVal) :=
  if fields.any (fun p => p.1 == k) then
    fields.map (fun p => if p.1 == k then (p.1, v) else p)
  else fields ++ [(k, v)]

/-- A resolved step-input object.  An entry `(k, none)` is a property that
exists with value `undefined` (as JS assignment of `undefined` creates the
key); a missing key is a property that was never assigned. -/
abbrev StepInput := List (String × Option JVal)

namespace StepInput

/-- Property read distinguishing absent (`none`) from
present-but-`undefined` (`some none`). -/
def get (input : StepInput) (k : String) : Option (Option JVal) :=
  (input.find? (fun p => p.1 == k)).map (fun p => p.2)

/-- Property read the way a JS expression sees it (absent and `undefined`
collapse). -/
def getJS (input : StepInput) (k : String) : Option JVal :=
  match input.find? (fun p => p.1 == k) with
  | some p => p.2
  | none => none

/-- Property write with JS object-spread semantics. -/
def set (input : StepInput) (k : String) (v : Option JVal) : StepInput :=
  if input.any (fun p => p.1 == k) then
    input.map (fun p => if p.1 == k then (p.1, v) else p)
  else input ++ [(k, v)]

/-- Truthiness of `input[k]` as used in `if (!step.input.objetivo)`. -/
def fieldTruthy (input : StepInput) (k : String) : Bool :=
  jsTruthy (input.getJS k)

end StepInput

/-- JS `String.prototype.toLowerCase` (ASCII; kernel-evaluable model of
`toLowerCase`, which the engine only applies to agent names and model ids). -/
def strToLower (s : String) : String := String.mk (s.toList.map Char.toLower)

/-- JS `String.prototype.startsWith` (kernel-evaluable). -/
def strStartsWith (s p : String) : Bool := p.toList.isPrefixOf s.toList

def splitOnCharAux (sep : Char) : List Char → List Char → List String
  | [], acc => [String.mk acc.reverse]
  | c :: rest, acc =>
    if c == sep then
      String.mk acc.reverse :: splitOnCharAux sep rest []
    else splitOnCharAux sep rest (c :: acc)

/-- JS `String.prototype.split` with a single-character separator
(kernel-evaluable; the engine only splits on `'.'`).  `"" ↦ [""]`,
`"a.b" ↦ ["a","b"]`, `"a." ↦ ["a",""]`. -/
def splitOnChar (sep : Char) (s : String) : List String :=
  splitOnCharAux sep s.toList []

/-- `status` of a `Step` (src/types.ts). -/
inductive StepStatus where
  | pending
  | running
  | completed
  | failed
  | skipped
deriving DecidableEq

/-- `type` of an `Agent` (src/types.ts). -/
inductive AgentType where
  | specialist
  | orchestrator
deriving DecidableEq

/-- One declared output-schema field (src/types.ts `SchemaField`); only the
parts the executor reads are kept. -/
structure SchemaField where
  name : String
  required : Bool
deriving DecidableEq

/-- `OrchestrationConfig`, restricted to the two fields the executor reads
(`executionMode`, read at executor.ts:743, and `consolidationStrategy`,
read at executor.ts:1002).  String-typed to carry the JS falsy-fallback. -/
structure OrchestrationConfig where
  executionMode : String
  consolidationStrategy : String
deriving DecidableEq

/-- `Agent` (src/types.ts), restricted to the fields the execution engine
reads.  Prompt-only fields (role, description, systemPrompt, temperature,
maxTokens, ragEnabled) shape the outbound request text, which the abstract
client oracle absorbs, so they are elided. -/
structure Agent where
  id : String
  type : AgentType
  name : String
  model : String
  outputSchema : List SchemaField := []
  allowedAgents : List String := []
  orchestrationConfig : Option OrchestrationConfig := none

/-- `Step` (src/types.ts): the live execution record.  String timestamps
(`startedAt`/`completedAt`) are elided; `duration` is kept in the
deterministic time model. -/
structure Step where
  id : String
  agentId : String
  agentName : String
  status : StepStatus
  input : StepInput := []
  output : Option JVal := none
  duration : Option Nat := none
  tokensUsed : Option Nat := none
  cost : Option Nat := none
  error : Option String := none
  description : String := ""
  dependsOn : List String := []

/-- `RunLog` (src/types.ts) without the generated id/timestamp and without
artifact payloads (no claim concerns them). -/
structure RunLog where
  stepId : Option String
  agentName : String
  level : String
  message : String
  phase : String

/-- `PlanStep` (src/types.ts). -/
structure PlanStep where
  stepId : String
  agentId : String
  agentName : String
  description : String
  inputMapping : List (String × String)
  dependsOn : List String
  priority : Nat
deriving DecidableEq

/-- `ExecutionPlan` (src/types.ts); `strategy` is string-typed to keep the
JS `|| 'sequential'` fallback observable. -/
structure ExecutionPlan where
  goal : String
  reasoning : String
  steps : List PlanStep
  estimatedSteps : Nat
  strategy : String

/-- `AgentResponse` (src/types.ts): the Specialist Invoker's uniform result. -/
structure AgentResponse where
  success : Bool
  output : Option JVal := none
  error : Option String := none
  tokensUsed : Option Nat := none
  cost : Option Nat := none

/-- `ExecutionConfig` (executor.ts:39).  `maxRetries` is `Int` so that the
behaviour on zero/negative retry budgets is observable (JS numbers). -/
structure ExecutionConfig where
  maxRetries : Int
  retryDelayMs : Nat
  stepTimeoutMs : Nat
  enableParallel : Bool

/-- `DEFAULT_CONFIG` (executor.ts:46). -/
def DEFAULT_CONFIG : ExecutionConfig :=
  { maxRetries := 3, retryDelayMs := 1000, stepTimeoutMs := 60000,
    enableParallel := true }

/-- A promise: resolves after `duration` ms with a value or a thrown error
message, or never resolves. -/
inductive AsyncResult (α : Type) where
  | resolves (duration : Nat) (value : Except String α)
  | never

/-- `withTimeout` (executor.ts:92): races the operation against a timer.
Returns the elapsed time together with the outcome.  A tie is resolved in
favour of the operation; no claim exercises the tie. -/
def withTimeout {α : Type} (promise : AsyncResult α) (timeoutMs : Nat)
    (errorMessage : String) : Nat × Except String α :=
  match promise with
  | .never => (timeoutMs, .error errorMessage)
  | .resolves d v => if d < timeoutMs then (d, v) else (timeoutMs, .error errorMessage)

/-- Observable trace of one `withRetry` call: final outcome, the `onRetry`
warning emissions `(attempt, error message)`, the backoff sleeps, the number
of `fn` invocations, and total elapsed time (attempt durations + sleeps). -/
structure RetryResult (α : Type) where
  result : Except String α
  warnings : List (Nat × String)
  sleeps : List Nat
  calls : Nat
  elapsed : Nat

/-- Loop body of `withRetry` (executor.ts:74-86): `remaining` counts the
attempts left out of `maxRetries`; `fn` takes the 1-based attempt number and
yields (duration, outcome). -/
def withRetryGo {α : Type} (fn : Nat → Nat × Except String α) (delayMs : Nat) :
    Nat → Nat → String → List (Nat × String) → List Nat → Nat → Nat →
    RetryResult α
  | _, 0, lastError, warnings, sleeps, calls, elapsed =>
    ⟨.error lastError, warnings, sleeps, calls, elapsed⟩
  | attempt, r + 1, _, warnings, sleeps, calls, elapsed =>
    match fn attempt with
    | (d, .ok a) => ⟨.ok a, warnings, sleeps, calls + 1, elapsed + d⟩
    | (d, .error e) =>
      if r = 0 then
        ⟨.error e, warnings, sleeps, calls + 1, elapsed + d⟩
      else
        withRetryGo fn delayMs (attempt + 1) r e
          (warnings ++ [(attempt, e)])
          (sleeps ++ [delayMs * 2 ^ (attempt - 1)])
          (calls + 1)
          (elapsed + d + delayMs * 2 ^ (attempt - 1))

/-- `withRetry` (executor.ts:68): runs `fn` up to `maxRetries` times with
exponential backoff `delayMs * 2^(attempt-1)` between attempts, emitting one
warning per non-final failed attempt; the initial `lastError` is
`'Unknown error'`, rethrown when the loop body never runs. -/
def withRetry {α : Type} (fn : Nat → Nat × Except String α) (maxRetries : Int)
    (delayMs : Nat) : RetryResult α :=
  withRetryGo fn delayMs 1 maxRetries.toNat "Unknown error" [] [] 0 0

/-- `getReadySteps` (executor.ts:114): steps neither completed nor running
whose dependencies are all completed.  Note it does not exclude steps that
already failed. -/
def getReadySteps (allSteps : List PlanStep) (completedStepIds : List String)
    (runningStepIds : List String) : List PlanStep :=
  allSteps.filter (fun step =>
    if completedStepIds.contains step.stepId ∨ runningStepIds.contains step.stepId then
      false
    else
      step.dependsOn.all (fun depId => completedStepIds.contains depId))

/-- `AccumulatedContext` (executor.ts:149).  The `completedSteps` `Map` is an
insertion-ordered list of step records with unique ids. -/
structure AccumulatedContext where
  userInput : List (String × JVal)
  completedSteps : List Step
  globalContext : List (String × JVal)

/-- One entry of `resolveInputMapping` (executor.ts:164-203): `none` means
the branch assigned nothing to the target field; `some none` means it
assigned `undefined`; `some (some v)` means it assigned `v`. -/
def resolveEntry (ctx : AccumulatedContext) (sourcePath : String) :
    Option (Option JVal) :=
  let parts := splitOnChar '.' sourcePath
  match parts with
  | [] => some (some (.str sourcePath))
  | p0 :: rest =>
    if p0 = "user_input" then
      some (match rest with
        | [] => some (.obj ctx.userInput)
        | f :: _ => jrecGet ctx.userInput f)
    else if p0 = "steps" then
      match rest with
      | [] => none
      | stepId :: sub =>
        match ctx.completedSteps.find? (fun s => s.id == stepId) with
        | some step =>
          match step.output with
          | some out =>
            if out.truthy ∧ sub.head? = some "output" then
              some (match sub with
                | _ :: f :: _ =>
                  match out with
                  | .obj fields => jrecGet fields f
                  | _ => none
                | _ => some out)
            else none
          | none => none
        | none => none
    else if p0 = "context" then
      some (match rest with
        | [] => some (.obj ctx.globalContext)
        | f :: _ => jrecGet ctx.globalContext f)
    else if p0 = "last_output" then
      match ctx.completedSteps.getLast? with
      | some lastStep =>
        match lastStep.output with
        | some out =>
          if out.truthy then
            some (match rest with
              | [] => some out
              | f :: _ =>
                match out with
                | .obj fields => jrecGet fields f
                | _ => none)
          else none
        | none => none
      | none => none
    else if p0 = "all_outputs" then
      some (some (.arr ((ctx.completedSteps.filter
          (fun s => jsTruthy s.output)).map (fun s =>
        .obj [("stepId", .str s.id), ("agentName", .str s.agentName),
              ("output", match s.output with | some o => o | none => .null)]))))
    else
      some (some (.str sourcePath))

/-- `resolveInputMapping` (executor.ts:157): resolves each
`targetField ↦ sourcePath` entry independently; an entry whose branch
assigns nothing contributes no property. -/
def resolveInputMapping (mapping : List (String × String))
    (ctx : AccumulatedContext) : StepInput :=
  mapping.filterMap (fun p => (resolveEntry ctx p.2).map (fun v => (p.1, v)))

/-- `IMAGE_GENERATION_MODELS` (executor.ts:210). -/
def IMAGE_GENERATION_MODELS : List String :=
  ["dall-e", "stable-diffusion", "sdxl", "midjourney", "imagen", "ideogram",
   "flux", "playground", "leonardo", "black-forest-labs", "stability"]

/-- Executable contiguous-subsequence test (JS `String.includes`). -/
def listContainsSeq (needle : List Char) : List Char → Bool
  | [] => needle.isEmpty
  | c :: rest => needle.isPrefixOf (c :: rest) || listContainsSeq needle rest

/-- `isImageGenerationModel` (executor.ts:224). -/
def isImageGenerationModel (modelId : String) : Bool :=
  IMAGE_GENERATION_MODELS.any (fun m =>
    listContainsSeq m.toList (strToLower modelId).toList)

/-- JSON string escaping for the platform serializer model (common escapes;
no claim depends on exotic control characters). -/
def escapeJsonChar (c : Char) : String :=
  if c == '"' then "\\\""
  else if c == '\\' then "\\\\"
  else if c == '\n' then "\\n"
  else if c == '\t' then "\\t"
  else if c == '\r' then "\\r"
  else String.singleton c

def escapeJson (s : String) : String :=
  String.join (s.toList.map escapeJsonChar)

mutual

/-- Model of the platform `JSON.stringify` on a defined value (whitespace of
the pretty-printing variant is not reproduced; no claim reads the produced
text, it only flows into consolidated output and image prompts). -/
def jsonStringify : JVal → String
  | .null => "null"
  | .bool true => "true"
  | .bool false => "false"
  | .num n => toString n
  | .str s => "\"" ++ escapeJson s ++ "\""
  | .arr es => "[" ++ jsonStringifyList es ++ "]"
  | .obj fs => "\x7b" ++ jsonStringifyFields fs ++ "\x7d"

def jsonStringifyList : List JVal → String
  | [] => ""
  | [v] => jsonStringify v
  | v :: rest => jsonStringify v ++ "," ++ jsonStringifyList rest

def jsonStringifyFields : List (String × JVal) → String
  | [] => ""
  | [(k, v)] => "\"" ++ escapeJson k ++ "\":" ++ jsonStringify v
  | (k, v) :: rest =>
    "\"" ++ escapeJson k ++ "\":" ++ jsonStringify v ++ "," ++
      jsonStringifyFields rest

end

/-- `JSON.stringify` of a step-input object: properties whose value is
`undefined` are dropped by the platform serializer. -/
def stepInputStringify (input : StepInput) : String :=
  jsonStringify (.obj (input.filterMap (fun p => p.2.map (fun v => (p.1, v)))))

/-- JS `a || b` on possibly-undefined values. -/
def jsOr (a b : Option JVal) : Option JVal :=
  if jsTruthy a then a else b

/-- JS `a || b` on possibly-undefined strings. -/
def jsOrStrOpt (a b : Option String) : Option String :=
  match a with
  | some s => if s == "" then b else some s
  | none => b

/-- JS `a || d` where `d` is a defined string default. -/
def jsOrStr (a : Option String) (d : String) : String :=
  match a with
  | some s => if s == "" then d else s
  | none => d

/-- `Object.values(input).find(v => typeof v === 'string')`
(executor.ts:295): first string-valued property, even the empty string. -/
def findStringValue (input : StepInput) : Option JVal :=
  (input.filterMap (fun p => p.2)).find? (fun v =>
    match v with
    | .str _ => true
    | _ => false)

/-- Prompt extraction for image-generation agents (executor.ts:294-296):
`input.prompt || input.text || input.description || first string value ||
JSON.stringify(input)`. -/
def extractPrompt (input : StepInput) : JVal :=
  (jsOr (input.getJS "prompt") (jsOr (input.getJS "text")
    (jsOr (input.getJS "description") (jsOr (findStringValue input)
      (some (.str (stepInputStringify input))))))).getD .null

/-- One free-form chat completion as the engine observes it: top choice
content (`choices[0]?.message?.content || ''`), the platform `JSON.parse`
outcome on that content (`none` = parse failure), and usage. -/
structure ChatResult where
  content : String
  parsed : Option JVal
  totalTokens : Nat
  cost : Option Nat

/-- One schema-constrained completion: already-parsed structured data plus
usage (spec §6: the capability returns parsed structured data). -/
structure SchemaResult where
  data : JVal
  totalTokens : Nat
  cost : Option Nat

/-- One element of an image-generation response. -/
structure ImageData where
  url : Option String
  b64Json : Option String
  revisedPrompt : Option String

/-- The completion capability's behaviour for one invocation attempt: what
each of the three outbound calls would do if issued (spec §6 treats the
client as an external capability; request payloads are absorbed by the
oracle). -/
structure ClientAttempt where
  chat : AsyncResult ChatResult := .never
  chatSchema : AsyncResult SchemaResult := .never
  image : AsyncResult (List ImageData) := .never

/-- `executeSpecialist` (executor.ts:284): one specialist invocation.  The
whole body is wrapped in try/catch, so a thrown client error becomes
`success := false` with the error message; only a never-resolving client
call makes the returned promise hang.  RAG retrieval (executor.ts:323-332)
only augments the outbound prompt text and swallows its own errors, so it is
absorbed by the client oracle. -/
def executeSpecialist (agent : Agent) (input : StepInput)
    (client : ClientAttempt) : AsyncResult AgentResponse :=
  if isImageGenerationModel agent.model then
    match client.image with
    | .never => .never
    | .resolves d (.error e) => .resolves d (.ok { success := false, error := some e })
    | .resolves d (.ok data) =>
      let prompt := extractPrompt input
      let imageUrls := data.filterMap (fun dd =>
        (match jsOrStrOpt dd.url dd.b64Json with
         | some s => if s == "" then none else some s
         | none => none))
      let imageUrl : JVal :=
        match imageUrls.head? with
        | some u => .str u
        | none => .null
      let revisedPrompt : JVal :=
        match data.head? with
        | some dd =>
          match dd.revisedPrompt with
          | some s => .str s
          | none => .null
        | none => .null
      let resp : AgentResponse :=
        { success := true,
          output := some (.obj
            [("images", .arr (imageUrls.map (fun u => .str u))),
             ("image_url", imageUrl),
             ("prompt", prompt),
             ("revised_prompt", revisedPrompt)]) }
      .resolves d (.ok resp)
  else if agent.outputSchema.length > 0 then
    match client.chatSchema with
    | .never => .never
    | .resolves d (.error e) => .resolves d (.ok { success := false, error := some e })
    | .resolves d (.ok r) =>
      let resp : AgentResponse :=
        { success := true, output := some r.data,
          tokensUsed := some r.totalTokens, cost := r.cost }
      .resolves d (.ok resp)
  else
    match client.chat with
    | .never => .never
    | .resolves d (.error e) => .resolves d (.ok { success := false, error := some e })
    | .resolves d (.ok r) =>
      let output : JVal :=
        match r.parsed with
        | some j => j
        | none => .obj [("result", .str r.content)]
      let resp : AgentResponse :=
        { success := true, output := some output,
          tokensUsed := some r.totalTokens, cost := r.cost }
      .resolves d (.ok resp)

/-- The plan payload the orchestrator LLM returns, in the shape declared at
executor.ts:475-485.  Both acquisition paths (schema-constrained call, and
the free-form fallback whose raw JSON is normalized at executor.ts:526-535)
deliver a value of this shape before plan construction; quantifying over
`PlanData` covers every completion-client response. -/
structure RawPlanStep where
  stepId : String
  agentId : String
  description : String
  inputMapping : List (String × String)
  dependsOn : List String
deriving DecidableEq

structure PlanData where
  reasoning : String
  steps : List RawPlanStep
  strategy : String
deriving DecidableEq

/-- `forEach`/`map` with the element index, as the source uses. -/
def mapWithIndex {α β : Type} (f : Nat → α → β) : Nat → List α → List β
  | _, [] => []
  | i, a :: as => f i a :: mapWithIndex f (i + 1) as

/-- Dependency sanitization (executor.ts:559-572, the tail of
`createExecutionPlan`): drop dependency ids that are not stepIds of this
plan, force the first step to have no dependencies, drop self-references. -/
def sanitizePlan (plan : ExecutionPlan) : ExecutionPlan :=
  let validStepIds := plan.steps.map (fun s => s.stepId)
  { plan with
    steps := mapWithIndex (fun index step =>
      let deps := step.dependsOn.filter (fun depId => validStepIds.contains depId)
      let deps := if index = 0 then [] else deps
      let deps := deps.filter (fun depId => depId != step.stepId)
      { step with dependsOn := deps }) 0 plan.steps }

/-- `createExecutionPlan` (executor.ts:422), from the parsed plan payload
onwards (the LLM round-trip that produced `planData` is the external
capability): normalize each step (positional default for an empty stepId,
agent-name lookup with fallback to the id, `|| {}` / `|| []` defaults),
then sanitize dependencies. -/
def createExecutionPlan (goal : String) (availableAgents : List Agent)
    (planData : PlanData) : ExecutionPlan :=
  let plan : ExecutionPlan :=
    { goal := goal,
      reasoning := if planData.reasoning == "" then "No reasoning provided"
        else planData.reasoning,
      steps := mapWithIndex (fun i s =>
        let normalizedAgentId := s.agentId
        let agent := availableAgents.find? (fun a => a.id == normalizedAgentId)
        { stepId := if s.stepId == "" then "step" ++ Nat.repr (i + 1) else s.stepId,
          agentId := normalizedAgentId,
          agentName := match agent with
            | some a => a.name
            | none => normalizedAgentId,
          description := s.description,
          inputMapping := s.inputMapping,
          dependsOn := s.dependsOn,
          priority := i }) 0 planData.steps,
      estimatedSteps := planData.steps.length,
      strategy := if planData.strategy == "" then "sequential" else planData.strategy }
  sanitizePlan plan

/-- The rule-derived plan built inline in `executeRun` (executor.ts:763-779)
for the `sequencial`/`paralelo` execution modes: one step per available
specialist in order, empty input mapping, chain dependencies only in
sequential mode.  Note this plan is not passed through `sanitizePlan`. -/
def ruleDerivedPlan (goal : String) (availableAgents : List Agent)
    (executionMode : String) : ExecutionPlan :=
  { goal := goal,
    reasoning := if executionMode == "paralelo" then
        "Executando todos especialistas em paralelo"
      else "Executando especialistas em cadeia sequencial",
    steps := mapWithIndex (fun i agent =>
      { stepId := "step" ++ Nat.repr (i + 1),
        agentId := agent.id,
        agentName := agent.name,
        description := "Executar " ++ agent.name,
        inputMapping := [],
        dependsOn := if executionMode == "sequencial" ∧ i > 0 then
            ["step" ++ Nat.repr i]
          else [],
        priority := i }) 0 availableAgents,
    estimatedSteps := availableAgents.length,
    strategy := if executionMode == "paralelo" then "parallel" else "sequential" }

/-- `consolidateResults` (executor.ts:585).  `concatenate` and `best_of_n`
are pure; `summarize` issues one chat call whose outcome the oracle gives. -/
def consolidateResults (goal : String) (steps : List Step)
    (chatCall : AsyncResult ChatResult) (strategy : String) :
    AsyncResult String :=
  let completedSteps := steps.filter (fun s =>
    s.status == .completed && jsTruthy s.output)
  if strategy == "concatenate" then
    .resolves 0 (.ok (String.intercalate "\n\n" (completedSteps.map (fun s =>
      "## " ++ s.agentName ++ "\n" ++
        (match s.output with
         | some o => jsonStringify o
         | none => "undefined")))))
  else if strategy == "summarize" then
    match chatCall with
    | .never => .never
    | .resolves d (.error e) => .resolves d (.error e)
    | .resolves d (.ok r) => .resolves d (.ok r.content)
  else
    .resolves 0 (.ok (match completedSteps.getLast? with
      | some lastStep =>
        match lastStep.output with
        | some o => jsonStringify o
        | none => "undefined"
      | none => "No results"))

/-- `Set.add` on the model of a JS `Set` kept in insertion order. -/
def setAdd (l : List String) (x : String) : List String :=
  if l.contains x then l else l ++ [x]

/-- `Map.set` on the model of the completed-steps `Map`: replace in place if
the key exists, else append (JS `Map` insertion-order semantics). -/
def mapSet (l : List Step) (s : Step) : List Step :=
  if l.any (fun t => t.id == s.id) then
    l.map (fun t => if t.id == s.id then s else t)
  else l ++ [s]

/-- `steps.find(s => s.id === id)` followed by in-place mutation: update the
first record with the given id. -/
def updateStepRecord (steps : List Step) (id : String) (f : Step → Step) :
    List Step :=
  match steps with
  | [] => []
  | s :: rest =>
    if s.id == id then f s :: rest else s :: updateStepRecord rest id f

/-- The input-resolution part of the per-attempt closure in
`executeStepWithRetry` (executor.ts:645-676): mapping resolution, the
auto-chain injection of the previous step's output, the default-input
fallback, and the guaranteed `objetivo` field. -/
def computeStepInput (planStep : PlanStep) (accCtx : AccumulatedContext) :
    StepInput :=
  let input0 := resolveInputMapping planStep.inputMapping accCtx
  let hasStepReference := planStep.inputMapping.any (fun p =>
    strStartsWith p.2 "steps.")
  let input1 :=
    if ¬ hasStepReference ∧ accCtx.completedSteps.length > 0 then
      match accCtx.completedSteps.getLast? with
      | some lastStep =>
        match lastStep.output with
        | some out =>
          if out.truthy then
            StepInput.set (StepInput.set input0 "input_anterior" (some out))
              "agente_anterior" (some (.str lastStep.agentName))
          else input0
        | none => input0
      | none => input0
    else input0
  let input2 :=
    if input1.length = 0 then
      [("tarefa", if planStep.description != "" then
          some (.str planStep.description)
        else jrecGet accCtx.userInput "goal"),
       ("objetivo", jrecGet accCtx.userInput "goal")]
    else input1
  if ¬ StepInput.fieldTruthy input2 "objetivo" then
    StepInput.set input2 "objetivo" (jrecGet accCtx.userInput "goal")
  else input2

/-- JS `stepTimeoutMs / 1000` rendered as the shortest decimal, as the
timeout message template does. -/
def jsDivThousandRepr (ms : Nat) : String :=
  if ms % 1000 = 0 then Nat.repr (ms / 1000)
  else
    let frac := ms % 1000
    let padded :=
      if frac < 10 then "00" ++ Nat.repr frac
      else if frac < 100 then "0" ++ Nat.repr frac
      else Nat.repr frac
    Nat.repr (ms / 1000) ++ "." ++
      String.mk ((padded.toList.reverse.dropWhile (fun c => c == '0')).reverse)

/-- The timeout message of executor.ts:684. -/
def stepTimeoutMessage (stepId : String) (stepTimeoutMs : Nat) : String :=
  "Step " ++ stepId ++ " timed out after " ++ jsDivThousandRepr stepTimeoutMs ++ "s"

/-- `executeStepWithRetry` (executor.ts:634): the whole timeout-wrapped
specialist invocation is the retried unit.  The input resolution runs inside
each attempt; since the accumulated context cannot change between the
attempts of one step execution here, it is computed once.  Returns the retry
trace together with the input the attempts stored into `step.input` (the
record keeps its previous input if no attempt ever ran). -/
def executeStepWithRetry (planStep : PlanStep) (agent : Agent)
    (accCtx : AccumulatedContext) (config : ExecutionConfig)
    (invoke : Nat → ClientAttempt) : RetryResult AgentResponse × StepInput :=
  let input := computeStepInput planStep accCtx
  (withRetry (fun attempt =>
      withTimeout (executeSpecialist agent input (invoke attempt))
        config.stepTimeoutMs
        (stepTimeoutMessage planStep.stepId config.stepTimeoutMs))
    config.maxRetries config.retryDelayMs, input)

/-- The mutable state the scheduler threads through step executions: the
live step records, the accumulated-context `Map` of completed steps, the two
id `Set`s, the log trace, and the total number of specialist-invocation
attempts actually issued (an observability counter for the model). -/
structure RunState where
  steps : List Step
  completedSteps : List Step
  completedIds : List String
  failedIds : List String
  logs : List RunLog
  invocations : Nat

/-- The per-run fixed inputs of the inner `executeStep` closure
(executor.ts:820). -/
structure StepExecEnv where
  agents : List Agent
  availableAgents : List Agent
  orchestratorName : String
  userInput : List (String × JVal)
  globalContext : List (String × JVal)
  config : ExecutionConfig
  invoke : String → Nat → ClientAttempt

/-- `executeStep` (executor.ts:820-919): agent lookup with the
case-insensitive name fallback, the immediate failure when no agent
resolves, then the retried invocation and the completed/failed transition.
`result.success && result.output` is a JS truthiness test, so a falsy
output (missing, `null`, `0`, `''`, `false`) fails the step while any
object — even an empty one — completes it. -/
def executeStep (env : StepExecEnv) (st : RunState) (planStep : PlanStep) :
    RunState :=
  let normalizedAgentId := planStep.agentId
  let byId := env.agents.find? (fun a => a.id == normalizedAgentId)
  let agentOpt :=
    match byId with
    | some a => some a
    | none => env.availableAgents.find? (fun a =>
        strToLower a.name == strToLower planStep.agentName ||
        strToLower a.name == strToLower normalizedAgentId)
  match agentOpt with
  | none =>
    let errMsg := "Agente \"" ++ normalizedAgentId ++
      "\" não encontrado. IDs disponíveis: " ++
      String.intercalate ", " (env.availableAgents.map (fun a => a.id))
    { st with
      steps := updateStepRecord st.steps planStep.stepId (fun s =>
        { s with status := .failed, error := some errMsg }),
      failedIds := setAdd st.failedIds planStep.stepId,
      logs := st.logs ++
        [{ stepId := some planStep.stepId, agentName := env.orchestratorName,
           level := "error",
           message := "Erro: Agente " ++ normalizedAgentId ++
             " não encontrado no sistema",
           phase := "DELEGATION" }] }
  | some agent =>
    let accCtx : AccumulatedContext :=
      { userInput := env.userInput, completedSteps := st.completedSteps,
        globalContext := env.globalContext }
    let res := executeStepWithRetry planStep agent accCtx env.config
      (env.invoke planStep.stepId)
    let retryRes := res.1
    let newInput : Option StepInput :=
      if env.config.maxRetries.toNat = 0 then none else some res.2
    let applyInput : Step → Step := fun s =>
      match newInput with
      | some inp => { s with input := inp }
      | none => s
    let preLogs : List RunLog :=
      [{ stepId := some planStep.stepId, agentName := env.orchestratorName,
         level := "info",
         message := "Delegando para " ++ agent.name ++ ": " ++
           planStep.description,
         phase := "DELEGATION" },
       { stepId := some planStep.stepId, agentName := agent.name,
         level := "info", message := "Processando...", phase := "PROCESS" }]
    let warnLogs : List RunLog := retryRes.warnings.map (fun w =>
      { stepId := some planStep.stepId, agentName := agent.name,
        level := "warn",
        message := "Tentativa " ++ Nat.repr w.1 ++ " falhou: " ++ w.2 ++
          ". Retentando...",
        phase := "PROCESS" })
    let st1 := { st with
      logs := st.logs ++ preLogs ++ warnLogs,
      invocations := st.invocations + retryRes.calls }
    match retryRes.result with
    | .ok result =>
      if result.success && jsTruthy result.output then
        let newSteps := updateStepRecord st1.steps planStep.stepId (fun s =>
          let s1 := applyInput s
          { s1 with
            status := .completed, output := result.output,
            tokensUsed := result.tokensUsed, cost := result.cost,
            duration := some retryRes.elapsed })
        let updatedRec :=
          match newSteps.find? (fun s => s.id == planStep.stepId) with
          | some r => mapSet st1.completedSteps r
          | none => st1.completedSteps
        { st1 with
          steps := newSteps,
          completedSteps := updatedRec,
          completedIds := setAdd st1.completedIds planStep.stepId,
          logs := st1.logs ++
            [{ stepId := some planStep.stepId, agentName := agent.name,
               level := "success", message := "Output gerado",
               phase := "OUTPUT" }] }
      else
        let errMsg := jsOrStr result.error "Unknown error"
        { st1 with
          steps := updateStepRecord st1.steps planStep.stepId (fun s =>
            let s1 := applyInput s
            { s1 with
              status := .failed, error := some errMsg,
              tokensUsed := result.tokensUsed, cost := result.cost,
              duration := some retryRes.elapsed }),
          failedIds := setAdd st1.failedIds planStep.stepId,
          logs := st1.logs ++
            [{ stepId := some planStep.stepId, agentName := agent.name,
               level := "error",
               message := "Erro após " ++ toString env.config.maxRetries ++
                 " tentativas: " ++ errMsg,
               phase := "OUTPUT" }] }
    | .error e =>
      { st1 with
        steps := updateStepRecord st1.steps planStep.stepId (fun s =>
          let s1 := applyInput s
          { s1 with
            status := .failed, error := some e,
            duration := some retryRes.elapsed }),
        failedIds := setAdd st1.failedIds planStep.stepId,
        logs := st1.logs ++
          [{ stepId := some planStep.stepId, agentName := agent.name,
             level := "error",
             message := "Erro após " ++ toString env.config.maxRetries ++
               " tentativas: " ++ e,
             phase := "OUTPUT" }] }

/-- The skip marking of the parallel loop (executor.ts:933-939). -/
def markSkippedParallel (st : RunState) (planStep : PlanStep) : RunState :=
  { st with
    steps := updateStepRecord st.steps planStep.stepId (fun s =>
      { s with status := .skipped, error := some "Dependências falharam" }),
    failedIds := setAdd st.failedIds planStep.stepId }

/-- The skip marking of the sequential loop (executor.ts:973-987). -/
def markSkippedSequential (st : RunState) (planStep : PlanStep)
    (orchestratorName : String) : RunState :=
  { st with
    steps := updateStepRecord st.steps planStep.stepId (fun s =>
      { s with status := .skipped, error := some "Dependências não satisfeitas" }),
    failedIds := setAdd st.failedIds planStep.stepId,
    logs := st.logs ++
      [{ stepId := some planStep.stepId, agentName := orchestratorName,
         level := "warn",
         message := "Step " ++ planStep.stepId ++ " pulado: dependências " ++
           String.intercalate ", " planStep.dependsOn ++ " não satisfeitas",
         phase := "DELEGATION" }] }

/-- The parallel scheduling loop (executor.ts:925-957).  Waves are
serialized left to right; `runningStepIds` is therefore always empty when
the ready set is computed, and the re-poll sleep branch is unreachable.
`none` means the `while` loop did not exit within `fuel` iterations. -/
def parallelLoopGo (env : StepExecEnv) (planSteps : List PlanStep) :
    Nat → RunState → Option RunState
  | 0, _ => none
  | fuel + 1, st =>
    if st.completedIds.length + st.failedIds.length < planSteps.length then
      let readySteps := getReadySteps planSteps st.completedIds []
      if readySteps.length = 0 then
        let remainingSteps := planSteps.filter (fun ps =>
          ¬ st.completedIds.contains ps.stepId ∧
          ¬ st.failedIds.contains ps.stepId)
        some (remainingSteps.foldl markSkippedParallel st)
      else
        let st1 := { st with logs := st.logs ++
          [{ stepId := none, agentName := env.orchestratorName,
             level := "info",
             message := "Executando " ++ Nat.repr readySteps.length ++
               " step(s) em paralelo: " ++
               String.intercalate ", " (readySteps.map (fun s => s.stepId)),
             phase := "DELEGATION" }] }
        parallelLoopGo env planSteps fuel (readySteps.foldl (executeStep env) st1)
    else some st

/-- One iteration of the sequential loop body (executor.ts:963-990): the
dependency check with the lenient previous-step-completed fallback decides
between skipping and executing.  The JS `plan.steps.indexOf(planStep)` is an
object-identity search, i.e. each iteration's own index, which the explicit
counter models. -/
def seqStepAction (env : StepExecEnv) (allSteps : List PlanStep) (i : Nat)
    (st : RunState) (ps : PlanStep) : RunState :=
  let dependenciesMet := (ps.dependsOn.length == 0) ||
    ps.dependsOn.all (fun depId => st.completedIds.contains depId)
  let previousCompleted :=
    if i = 0 then true
    else
      match allSteps.get? (i - 1) with
      | some prev => st.completedIds.contains prev.stepId
      | none => true
  if !dependenciesMet && !previousCompleted then
    markSkippedSequential st ps env.orchestratorName
  else
    executeStep env st ps

/-- The sequential scheduling loop (executor.ts:962-991), iterating the plan
steps in order. -/
def sequentialLoopGo (env : StepExecEnv) (allSteps : List PlanStep) :
    Nat → List PlanStep → RunState → RunState
  | _, [], st => st
  | i, ps :: rest, st =>
    sequentialLoopGo env allSteps (i + 1) rest (seqStepAction env allSteps i st ps)

/-- The run record fields `executeRun` consumes. -/
structure RunRecord where
  orchestratorId : String
  goal : String
  context : List (String × JVal) := []

/-- The completion capability's behaviour over one whole run: the outcome of
plan acquisition (the net result of the schema-then-fallback round trip of
executor.ts:487-536), the behaviour of each specialist invocation keyed by
stepId and 1-based attempt number, and the consolidation chat call. -/
structure ClientModel where
  planData : AsyncResult PlanData := .never
  invoke : String → Nat → ClientAttempt := fun _ _ => {}
  consolidateChat : AsyncResult ChatResult := .never

/-- Everything observable about a finished run. -/
structure ExecOutcome where
  status : String
  steps : List Step
  consolidatedOutput : String
  totalTokens : Nat
  completedIds : List String
  failedIds : List String
  logs : List RunLog
  invocations : Nat
  plan : ExecutionPlan

/-- Outcome of `executeRun`: a thrown fatal error, a promise that never
resolves (a hanging client call outside any step timeout), loop fuel
exhaustion (the model's witness of divergence), or a finished run. -/
inductive RunResult where
  | fatal (msg : String)
  | hangs
  | fuelOut
  | ok (o : ExecOutcome)

/-- The step-record initialization of executor.ts:792-800. -/
def initialSteps (plan : ExecutionPlan) : List Step :=
  plan.steps.map (fun ps =>
    { id := ps.stepId, agentId := ps.agentId, agentName := ps.agentName,
      status := .pending, input := [], description := ps.description,
      dependsOn := ps.dependsOn })

/-- The scheduler state at the start of step execution
(executor.ts:805-814). -/
def initialRunState (orchestratorName : String) (plan : ExecutionPlan) :
    RunState :=
  { steps := initialSteps plan, completedSteps := [], completedIds := [],
    failedIds := [],
    logs := [{ stepId := none, agentName := orchestratorName,
               level := "info", message := "Iniciando execução",
               phase := "PLANNING" }],
    invocations := 0 }

/-- The tail of `executeRun` after step execution (executor.ts:994-1032):
consolidation, totals, and the final status computation
`hasFailures && completedStepIds.size === 0 ? 'failed' : 'completed'`. -/
def finishRun (goal : String) (client : ClientModel)
    (consolidationStrategy : String) (plan : ExecutionPlan) (st : RunState) :
    RunResult :=
  match consolidateResults goal st.steps client.consolidateChat
      consolidationStrategy with
  | .never => .hangs
  | .resolves _ (.error e) => .fatal e
  | .resolves _ (.ok consolidatedOutput) =>
    let totalTokens := (st.steps.map (fun s =>
      match s.tokensUsed with
      | some t => t
      | none => 0)).sum
    let hasFailures := st.failedIds.length > 0
    .ok { status := if hasFailures ∧ st.completedIds.length = 0 then "failed"
            else "completed",
          steps := st.steps,
          consolidatedOutput := consolidatedOutput,
          totalTokens := totalTokens,
          completedIds := st.completedIds,
          failedIds := st.failedIds,
          logs := st.logs,
          invocations := st.invocations,
          plan := plan }

/-- The per-run environment of the inner `executeStep` closure. -/
def mkStepExecEnv (run : RunRecord) (agents availableAgents : List Agent)
    (orchestratorName : String) (config : ExecutionConfig)
    (client : ClientModel) : StepExecEnv :=
  { agents := agents, availableAgents := availableAgents,
    orchestratorName := orchestratorName,
    userInput := run.context.foldl (fun acc p => jrecSet acc p.1 p.2)
      [("goal", .str run.goal)],
    globalContext := run.context, config := config, invoke := client.invoke }

/-- Step execution and consolidation over an acquired plan
(executor.ts:791-1032): initialize the step records, run the parallel or
sequential scheduler, then `finishRun`. -/
def executePlanned (run : RunRecord) (agents : List Agent)
    (client : ClientModel) (config : ExecutionConfig) (fuel : Nat)
    (orchestrator : Agent) (availableAgents : List Agent)
    (consolidationStrategy : String)
    (planResult : AsyncResult ExecutionPlan) : RunResult :=
  if availableAgents.length = 0 then
    .fatal "Nenhum especialista disponível. Configure especialistas no orquestrador."
  else
  match planResult with
  | .never => .hangs
  | .resolves _ (.error e) => .fatal e
  | .resolves _ (.ok plan) =>
    let env := mkStepExecEnv run agents availableAgents orchestrator.name
      config client
    let st0 : RunState := initialRunState orchestrator.name plan
    let shouldRunParallel := config.enableParallel &&
      (plan.strategy == "parallel" || plan.strategy == "mixed")
    let loopRes : Option RunState :=
      if shouldRunParallel then parallelLoopGo env plan.steps fuel st0
      else some (sequentialLoopGo env plan.steps 0 plan.steps st0)
    match loopRes with
    | none => .fuelOut
    | some st =>
      finishRun run.goal client consolidationStrategy plan st

/-- `executeRun` (executor.ts:704): orchestrator lookup, allowed-specialist
filtering, plan acquisition by execution mode, scheduling, and the
consolidation/status tail `finishRun`. -/
def executeRun (run : RunRecord) (agents : List Agent) (client : ClientModel)
    (config : ExecutionConfig) (fuel : Nat) : RunResult :=
  match agents.find? (fun a => a.id == run.orchestratorId) with
  | none => .fatal "Orchestrator not found"
  | some orchestrator =>
    let allowedIds := orchestrator.allowedAgents
    let availableAgents := agents.filter (fun a =>
      a.type == .specialist && allowedIds.contains a.id)
    let executionMode :=
      match orchestrator.orchestrationConfig with
      | some c => if c.executionMode == "" then "sequencial" else c.executionMode
      | none => "sequencial"
    let planResult : AsyncResult ExecutionPlan :=
      if executionMode == "llm" then
        match client.planData with
        | .never => .never
        | .resolves d (.error e) => .resolves d (.error e)
        | .resolves d (.ok pd) =>
          .resolves d (.ok (createExecutionPlan run.goal availableAgents pd))
      else
        .resolves 0 (.ok (ruleDerivedPlan run.goal availableAgents executionMode))
    let consolidationStrategy :=
      match orchestrator.orchestrationConfig with
      | some c => if c.consolidationStrategy == "" then "summarize"
          else c.consolidationStrategy
      | none => "summarize"
    executePlanned run agents client config fuel orchestrator
      availableAgents consolidationStrategy planResult

/-! ## Helper lemmas -/

/-- Decimal evaluation of a digit character. -/
def digitVal (c : Char) : Nat := c.toNat - Char.toNat '0'

/-- Decimal evaluation of a digit string (most significant first). -/
def digitsToNat (l : List Char) : Nat :=
  l.foldl (fun acc c => acc * 10 + digitVal c) 0

theorem toDigitsCore_eq_append (fuel : Nat) :
    ∀ (n : Nat) (ds : List Char),
      Nat.toDigitsCore 10 fuel n ds = Nat.toDigitsCore 10 fuel n [] ++ ds := by
  induction fuel with
  | zero => intro n ds; simp [Nat.toDigitsCore]
  | succ fuel ih =>
    intro n ds
    simp only [Nat.toDigitsCore]
    by_cases h : n / 10 = 0
    · simp [h]
    · simp only [h, if_false]
      rw [ih (n / 10) [Nat.digitChar (n % 10)],
        ih (n / 10) (Nat.digitChar (n % 10) :: ds), List.append_assoc]
      rfl

theorem digitVal_digitChar (d : Nat) (h : d < 10) :
    digitVal (Nat.digitChar d) = d := by
  interval_cases d <;> rfl

theorem digitsToNat_toDigitsCore (fuel : Nat) :
    ∀ n : Nat, n < fuel → digitsToNat (Nat.toDigitsCore 10 fuel n []) = n := by
  induction fuel with
  | zero => intro n h; omega
  | succ fuel ih =>
    intro n h
    have hmod : n % 10 < 10 := Nat.mod_lt n (by omega)
    have hdm := Nat.div_add_mod n 10
    simp only [Nat.toDigitsCore]
    by_cases h0 : n / 10 = 0
    · simp only [h0, if_true]
      have hmn : n % 10 = n := by omega
      have hn10 : n < 10 := by omega
      simp [digitsToNat, hmn, digitVal_digitChar n hn10]
    · simp only [h0, if_false]
      rw [toDigitsCore_eq_append]
      have hlt : n / 10 < fuel := by
        have h1 : 0 < n := by omega
        have := Nat.div_lt_self h1 (by omega : 1 < 10)
        omega
      simp only [digitsToNat, List.foldl_append] at ih ⊢
      rw [ih (n / 10) hlt]
      simp only [List.foldl]
      rw [digitVal_digitChar _ hmod]
      omega

theorem natRepr_injective {m n : Nat} (h : Nat.repr m = Nat.repr n) : m = n := by
  have hm : Nat.repr m = (Nat.toDigits 10 m).asString := rfl
  have hn : Nat.repr n = (Nat.toDigits 10 n).asString := rfl
  rw [hm, hn] at h
  have hdata : Nat.toDigits 10 m = Nat.toDigits 10 n := congrArg String.data h
  have h1 := digitsToNat_toDigitsCore (m + 1) m (by omega)
  have h2 := digitsToNat_toDigitsCore (n + 1) n (by omega)
  have : digitsToNat (Nat.toDigits 10 m) = digitsToNat (Nat.toDigits 10 n) := by
    rw [hdata]
  simpa [Nat.toDigits, h1, h2] using this

/-- The positional stepId template `step${i}`. -/
def stepIdFor (i : Nat) : String := "step" ++ Nat.repr i

theorem stepIdFor_injective {i j : Nat} (h : stepIdFor i = stepIdFor j) :
    i = j := by
  apply natRepr_injective
  have := congrArg String.data h
  simp only [stepIdFor, String.data_append] at this
  have := List.append_cancel_left this
  exact congrArg List.asString this

/-! ## Retry/backoff lemmas -/

theorem list_map_congr_fun {α β : Type} (l : List α) (f g : α → β)
    (h : ∀ a ∈ l, f a = g a) : l.map f = l.map g := by
  induction l with
  | nil => rfl
  | cons x xs ih =>
    simp only [List.map_cons]
    rw [h x (by simp), ih (fun a ha => h a (by simp [ha]))]

theorem range_map_head_shift {β : Type} (f : Nat → β) (r : Nat) (h : 1 ≤ r) :
    (List.range r).map f = f 0 :: (List.range (r - 1)).map (fun k => f (k + 1)) := by
  obtain ⟨s, rfl⟩ : ∃ s, r = s + 1 := ⟨r - 1, by omega⟩
  simp only [List.range_succ_eq_map, List.map_cons, List.map_map,
    Nat.add_sub_cancel]
  constructor

theorem warn_list_shift (attempt r : Nat) (msg : String) (h : 1 ≤ r) :
    (attempt, msg) :: (List.range (r - 1)).map (fun k => (attempt + 1 + k, msg)) =
      (List.range r).map (fun k => (attempt + k, msg)) := by
  rw [range_map_head_shift (fun k => (attempt + k, msg)) r h]
  simp only [Nat.add_zero, List.cons.injEq, true_and]
  apply list_map_congr_fun
  intro a _
  have : attempt + 1 + a = attempt + (a + 1) := by omega
  rw [this]

theorem sleep_list_shift (delayMs attempt r : Nat) (hatt : 1 ≤ attempt)
    (h : 1 ≤ r) :
    delayMs * 2 ^ (attempt - 1) ::
        (List.range (r - 1)).map (fun k => delayMs * 2 ^ (attempt + k)) =
      (List.range r).map (fun k => delayMs * 2 ^ (attempt - 1 + k)) := by
  rw [range_map_head_shift (fun k => delayMs * 2 ^ (attempt - 1 + k)) r h]
  simp only [Nat.add_zero, List.cons.injEq, true_and]
  apply list_map_congr_fun
  intro a _
  have : attempt + a = attempt - 1 + (a + 1) := by omega
  rw [this]

/-- Behaviour of the retry loop when every attempt fails the same way (e.g.
every attempt times out after `T` ms): all `maxRetries` attempts run, each
non-final one emitting a warning and sleeping its backoff delay. -/
theorem withRetryGo_const_fail {α : Type} (fn : Nat → Nat × Except String α)
    (delayMs T : Nat) (msg : String) (hfn : ∀ k, fn k = (T, .error msg)) :
    ∀ (r attempt : Nat) (lastE : String) (ws : List (Nat × String))
      (ss : List Nat) (c el : Nat), 1 ≤ r → 1 ≤ attempt →
      withRetryGo fn delayMs attempt r lastE ws ss c el =
        ⟨.error msg,
         ws ++ (List.range (r - 1)).map (fun k => (attempt + k, msg)),
         ss ++ (List.range (r - 1)).map (fun k => delayMs * 2 ^ (attempt - 1 + k)),
         c + r,
         el + r * T +
           ((List.range (r - 1)).map (fun k => delayMs * 2 ^ (attempt - 1 + k))).sum⟩ := by
  intro r
  induction r with
  | zero => intro attempt lastE ws ss c el h1 _; exact absurd h1 (by omega)
  | succ r ih =>
    intro attempt lastE ws ss c el _ hatt
    by_cases hr : r = 0
    · subst hr
      simp [withRetryGo, hfn attempt, Nat.one_mul]
    · have hr1 : 1 ≤ r := by omega
      simp only [withRetryGo, hfn attempt]
      rw [if_neg hr]
      rw [ih (attempt + 1) msg (ws ++ [(attempt, msg)])
        (ss ++ [delayMs * 2 ^ (attempt - 1)]) (c + 1)
        (el + T + delayMs * 2 ^ (attempt - 1)) hr1 (by omega)]
      have hsum := congrArg List.sum (sleep_list_shift delayMs attempt r hatt hr1)
      simp only [List.sum_cons] at hsum
      simp only [Nat.add_sub_cancel, List.append_assoc, List.singleton_append,
        RetryResult.mk.injEq]
      refine ⟨trivial, ?_, ?_, by omega, ?_⟩
      · rw [warn_list_shift attempt r msg hr1]
      · rw [sleep_list_shift delayMs attempt r hatt hr1]
      · rw [← hsum, Nat.succ_mul]
        generalize r * T = rT
        generalize delayMs * 2 ^ (attempt - 1) = A
        generalize ((List.range (r - 1)).map
          (fun k => delayMs * 2 ^ (attempt + k))).sum = S
        omega

theorem geom_sum_list (delay n : Nat) :
    ((List.range n).map (fun k => delay * 2 ^ k)).sum = delay * (2 ^ n - 1) := by
  induction n with
  | zero => simp
  | succ n ih =>
    rw [List.range_succ, List.map_append, List.sum_append, ih]
    have h1 : 0 < 2 ^ n := pow_pos (by omega) n
    simp only [List.map_cons, List.map_nil, List.sum_cons, List.sum_nil,
      Nat.add_zero]
    rw [pow_succ, ← Nat.mul_add]
    congr 1
    omega

/-- The final result when every attempt fails, with varying errors: the
last attempt's error is rethrown. -/
theorem withRetryGo_all_fail_result {α : Type} (fn : Nat → Nat × Except String α)
    (delayMs : Nat) (d : Nat → Nat) (errs : Nat → String)
    (hfn : ∀ k, fn k = (d k, .error (errs k))) :
    ∀ (r attempt : Nat) (lastE : String) (ws : List (Nat × String))
      (ss : List Nat) (c el : Nat), 1 ≤ r →
      (withRetryGo fn delayMs attempt r lastE ws ss c el).result =
        .error (errs (attempt + r - 1)) := by
  intro r
  induction r with
  | zero => intro attempt lastE ws ss c el h1; exact absurd h1 (by omega)
  | succ r ih =>
    intro attempt lastE ws ss c el _
    by_cases hr : r = 0
    · subst hr
      simp [withRetryGo, hfn attempt]
    · have hr1 : 1 ≤ r := by omega
      simp only [withRetryGo, hfn attempt]
      rw [if_neg hr]
      rw [ih (attempt + 1) (errs attempt) (ws ++ [(attempt, errs attempt)])
        (ss ++ [delayMs * 2 ^ (attempt - 1)]) (c + 1)
        (el + d attempt + delayMs * 2 ^ (attempt - 1)) hr1]
      have heq : attempt + 1 + r - 1 = attempt + (r + 1) - 1 := by omega
      rw [heq]

/-- A specialist invocation whose client call never resolves is itself a
never-resolving promise, in every branch of `executeSpecialist`. -/
theorem executeSpecialist_never (agent : Agent) (input : StepInput) :
    executeSpecialist agent input {} = .never := by
  unfold executeSpecialist
  split_ifs <;> rfl

/-- `withRetry` on attempts that fail on 1 and 2 and succeed on 3, with
`maxRetries = 3`: two warnings with the attempt numbers and error messages,
backoff sleeps of `delay` and `2*delay`, and a successful result after three
invocations. -/
theorem withRetry_fail_fail_ok {α : Type} (fn : Nat → Nat × Except String α)
    (delay d1 d2 d3 : Nat) (e1 e2 : String) (a : α)
    (h1 : fn 1 = (d1, .error e1)) (h2 : fn 2 = (d2, .error e2))
    (h3 : fn 3 = (d3, .ok a)) :
    withRetry fn 3 delay =
      ⟨.ok a, [(1, e1), (2, e2)], [delay, 2 * delay], 3,
        d1 + d2 + d3 + 3 * delay⟩ := by
  simp only [withRetry, Int.toNat_ofNat]
  simp only [show (3 : Int).toNat = 3 from rfl]
  simp only [withRetryGo, h1, h2, h3]
  norm_num
  constructor
  · ring
  · ring

/-! ## Concrete scenarios and outcome projections -/

def runOutcome : RunResult → Option ExecOutcome
  | .ok o => some o
  | _ => none

def stepStatuses (o : ExecOutcome) : List StepStatus :=
  o.steps.map (fun s => s.status)

/-- Number of emitted retry-warning logs (`Tentativa N falhou: ...`). -/
def retryWarnCount (o : ExecOutcome) : Nat :=
  (o.logs.filter (fun l =>
    l.level == "warn" && strStartsWith l.message "Tentativa")).length

def hangPlanStep : PlanStep :=
  { stepId := "s1", agentId := "a", agentName := "AA", description := "",
    inputMapping := [], dependsOn := [], priority := 0 }

def hangAgent : Agent :=
  { id := "a", type := .specialist, name := "AA", model := "gpt" }

def hangCtx : AccumulatedContext :=
  { userInput := [("goal", .str "g")], completedSteps := [],
    globalContext := [] }

def timeoutCfg : ExecutionConfig :=
  { maxRetries := 3, retryDelayMs := 10, stepTimeoutMs := 50,
    enableParallel := true }

/-- A step execution against a never-resolving client is `withRetry` over a
constantly timing-out attempt. -/
theorem executeStepWithRetry_hang (planStep : PlanStep) (agent : Agent)
    (accCtx : AccumulatedContext) (config : ExecutionConfig) :
    (executeStepWithRetry planStep agent accCtx config (fun _ => {})).1 =
      withRetry (fun _ => (config.stepTimeoutMs,
        .error (stepTimeoutMessage planStep.stepId config.stepTimeoutMs)))
        config.maxRetries config.retryDelayMs := by
  have h0 : (executeStepWithRetry planStep agent accCtx config (fun _ => {})).1 =
      withRetry (fun attempt => withTimeout
        (executeSpecialist agent (computeStepInput planStep accCtx) {})
        config.stepTimeoutMs
        (stepTimeoutMessage planStep.stepId config.stepTimeoutMs))
        config.maxRetries config.retryDelayMs := rfl
  rw [h0]
  congr 1
  funext attempt
  rw [executeSpecialist_never]
  rfl

/-- C3 (amended): with a completion client whose call never resolves, every
attempt times out after `stepTimeoutMs`; since the timeout-wrapped attempt
is the unit that gets retried, the step execution fails with the timed-out
message only after `maxRetries` attempts, with total elapsed time
`maxRetries * stepTimeoutMs + retryDelayMs * (2^(maxRetries-1) - 1)` —
not as soon as a single timeout interval elapses.  The timed-out message is
the final error for every `maxRetries ≥ 1`. -/
theorem claimC3_timeout_retried (planStep : PlanStep) (agent : Agent)
    (accCtx : AccumulatedContext) (config : ExecutionConfig)
    (hmr : 1 ≤ config.maxRetries) :
    ((executeStepWithRetry planStep agent accCtx config (fun _ => {})).1).result =
        .error (stepTimeoutMessage planStep.stepId config.stepTimeoutMs) ∧
    ((executeStepWithRetry planStep agent accCtx config (fun _ => {})).1).calls =
        config.maxRetries.toNat ∧
    ((executeStepWithRetry planStep agent accCtx config (fun _ => {})).1).elapsed =
        config.maxRetries.toNat * config.stepTimeoutMs +
          config.retryDelayMs * (2 ^ (config.maxRetries.toNat - 1) - 1) := by
  have hm1 : 1 ≤ config.maxRetries.toNat := by omega
  rw [executeStepWithRetry_hang]
  have key := @withRetryGo_const_fail AgentResponse
    (fun _ => (config.stepTimeoutMs,
      .error (stepTimeoutMessage planStep.stepId config.stepTimeoutMs)))
    config.retryDelayMs config.stepTimeoutMs
    (stepTimeoutMessage planStep.stepId config.stepTimeoutMs)
    (fun _ => rfl)
    config.maxRetries.toNat 1 "Unknown error" [] [] 0 0 hm1 (by omega)
  have hw : withRetry (fun _ => ((config.stepTimeoutMs : Nat),
      (.error (stepTimeoutMessage planStep.stepId config.stepTimeoutMs) :
        Except String AgentResponse)))
      config.maxRetries config.retryDelayMs =
      withRetryGo (fun _ => (config.stepTimeoutMs,
        .error (stepTimeoutMessage planStep.stepId config.stepTimeoutMs)))
        config.retryDelayMs 1 config.maxRetries.toNat "Unknown error" [] [] 0 0 := rfl
  rw [hw, key]
  have hexp : ((List.range (config.maxRetries.toNat - 1)).map
      (fun k => config.retryDelayMs * 2 ^ (1 - 1 + k))).sum =
      config.retryDelayMs * (2 ^ (config.maxRetries.toNat - 1) - 1) := by
    rw [list_map_congr_fun _ _ (fun k => config.retryDelayMs * 2 ^ k)
      (by intro a _; norm_num)]
    exact geom_sum_list _ _
  refine ⟨rfl, by simp, ?_⟩
  simp only [hexp, Nat.zero_add, List.nil_append]

/-- C3 counterexample: with `stepTimeoutMs = 50`, `retryDelayMs = 10` and
`maxRetries = 3`, the never-resolving client makes the step fail with the
timed-out message only after 180 ms of attempts and backoff — more than a
single 50 ms timeout interval — refuting "as soon as one timeout interval
elapses, regardless of maxRetries". -/
theorem claimC3_counterexample :
    ((executeStepWithRetry hangPlanStep hangAgent hangCtx timeoutCfg
        (fun _ => {})).1).result = .error "Step s1 timed out after 0.05s" ∧
    ((executeStepWithRetry hangPlanStep hangAgent hangCtx timeoutCfg
        (fun _ => {})).1).elapsed = 180 ∧
    (180 : Nat) ≠ 50 :=
  ⟨rfl, rfl, by decide⟩

/-- Witness for the amended C3 theorem at a concrete configuration. -/
theorem claimC3_witness :
    (1 : Int) ≤ timeoutCfg.maxRetries ∧
    ((executeStepWithRetry hangPlanStep hangAgent hangCtx timeoutCfg
        (fun _ => {})).1).result =
      .error (stepTimeoutMessage hangPlanStep.stepId timeoutCfg.stepTimeoutMs) :=
  ⟨by decide,
   (claimC3_timeout_retried hangPlanStep hangAgent hangCtx timeoutCfg
     (by decide)).1⟩

def c4Orch : Agent :=
  { id := "orch", type := .orchestrator, name := "Orch", model := "gpt",
    allowedAgents := ["a"],
    orchestrationConfig :=
      some { executionMode := "sequencial", consolidationStrategy := "best_of_n" } }

def c4Agent : Agent :=
  { id := "a", type := .specialist, name := "AA", model := "gpt" }

def c4Run : RunRecord := { orchestratorId := "orch", goal := "g" }

/-- A completion client that throws on the first two invocation attempts of
every step and succeeds from the third attempt on. -/
def c4Client : ClientModel :=
  { invoke := fun _ attempt =>
      if attempt < 3 then
        { chat := .resolves 0 (.error ("fail" ++ Nat.repr attempt)) }
      else
        { chat := .resolves 0
            (.ok { content := "done", parsed := none, totalTokens := 1, cost := none }) } }

def c4Cfg : ExecutionConfig :=
  { maxRetries := 3, retryDelayMs := 10, stepTimeoutMs := 60000,
    enableParallel := true }

/-- C4 counterexample: with a client that throws exactly twice then succeeds
and `maxRetries = 3`, the step ends `failed` — not `completed` — after a
single invocation, and zero retry warning logs are emitted (the claim
predicts `completed` with exactly 2 warnings): the specialist invoker
catches the thrown client error and returns `success:false`, which the
retry wrapper treats as a successful resolution. -/
theorem claimC4_counterexample :
    (runOutcome (executeRun c4Run [c4Orch, c4Agent] c4Client c4Cfg 10)).map
        (fun o => (stepStatuses o, retryWarnCount o, o.invocations)) =
      some ([.failed], 0, 1) := rfl

/-- C4 (amended): `withRetry` itself satisfies the stated contract — with
attempts failing twice then succeeding under `maxRetries = 3` it returns
success after emitting exactly the two warnings `(attempt, message)` and
sleeping `delay` then `2*delay`, and when every attempt fails it rethrows
the last error after `maxRetries` attempts.  However, the specialist
invoker catches thrown completion-client errors and returns `success:false`
instead of rethrowing, so the timeout-wrapped retried unit resolves
successfully and no retry occurs: a client that throws exactly twice and
then succeeds, with `maxRetries = 3`, yields a step that ends `failed`
after a single invocation with zero retry warning logs. -/
theorem claimC4_retry_contract :
    (∀ (fn : Nat → Nat × Except String Nat) (delay d1 d2 d3 : Nat)
      (e1 e2 : String) (a : Nat),
      fn 1 = (d1, .error e1) → fn 2 = (d2, .error e2) → fn 3 = (d3, .ok a) →
      withRetry fn 3 delay =
        ⟨.ok a, [(1, e1), (2, e2)], [delay, 2 * delay], 3,
          d1 + d2 + d3 + 3 * delay⟩) ∧
    (∀ (fn : Nat → Nat × Except String Nat) (delay : Nat) (d : Nat → Nat)
      (errs : Nat → String) (m : Int),
      (∀ k, fn k = (d k, .error (errs k))) → 1 ≤ m →
      (withRetry fn m delay).result = .error (errs m.toNat)) ∧
    (runOutcome (executeRun c4Run [c4Orch, c4Agent] c4Client c4Cfg 10)).map
        (fun o => (stepStatuses o, retryWarnCount o, o.invocations)) =
      some ([.failed], 0, 1) := by
  refine ⟨?_, ?_, rfl⟩
  · intro fn delay d1 d2 d3 e1 e2 a h1 h2 h3
    exact withRetry_fail_fail_ok fn delay d1 d2 d3 e1 e2 a h1 h2 h3
  · intro fn delay d errs m hfn hm
    have h1 : 1 ≤ m.toNat := by omega
    have key := withRetryGo_all_fail_result fn delay d errs hfn m.toNat 1
      "Unknown error" [] [] 0 0 h1
    have heq : 1 + m.toNat - 1 = m.toNat := by omega
    rw [heq] at key
    exact key

/-- Witness for the amended C4 theorem: both retry-contract conjuncts
instantiated at concrete attempt functions. -/
theorem claimC4_witness :
    withRetry (fun k => if k < 3 then ((0 : Nat), Except.error ("e" ++ Nat.repr k))
        else (0, Except.ok (7 : Nat))) 3 5 =
      ⟨.ok 7, [(1, "e1"), (2, "e2")], [5, 2 * 5], 3, 0 + 0 + 0 + 3 * 5⟩ ∧
    (withRetry (fun k => ((0 : Nat),
        (Except.error ("e" ++ Nat.repr k) : Except String Nat))) 3 5).result =
      .error "e3" :=
  ⟨claimC4_retry_contract.1 _ 5 0 0 0 "e1" "e2" 7 rfl rfl rfl,
   claimC4_retry_contract.2.1 _ 5 (fun _ => 0) (fun k => "e" ++ Nat.repr k) 3
     (fun _ => rfl) (by decide)⟩

def c10Orch : Agent :=
  { id := "orch", type := .orchestrator, name := "Orch", model := "gpt",
    allowedAgents := ["a", "b"],
    orchestrationConfig :=
      some { executionMode := "sequencial", consolidationStrategy := "concatenate" } }

def c10AgentA : Agent :=
  { id := "a", type := .specialist, name := "AA", model := "gpt" }

def c10AgentB : Agent :=
  { id := "b", type := .specialist, name := "BB", model := "gpt" }

def c10Client : ClientModel :=
  { invoke := fun _ _ =>
      { chat := .resolves 0
          (.ok { content := "x", parsed := none, totalTokens := 1, cost := none }) } }

def c10Cfg : ExecutionConfig :=
  { maxRetries := 0, retryDelayMs := 10, stepTimeoutMs := 50,
    enableParallel := true }

def c10Run : RunRecord := { orchestratorId := "orch", goal := "g" }

/-- C10 counterexample: with `maxRetries = 0` on a sequential two-step run,
the second step ends `skipped`, not `failed` — refuting "every step of the
run fails". -/
theorem claimC10_counterexample :
    (runOutcome (executeRun c10Run [c10Orch, c10AgentA, c10AgentB] c10Client
        c10Cfg 10)).map stepStatuses = some [.failed, .skipped] ∧
    StepStatus.skipped ≠ StepStatus.failed :=
  ⟨rfl, by decide⟩

/-- C10 (amended): with `maxRetries ≤ 0` (zero or negative), `withRetry`
never invokes the wrapped function and throws the generic 'Unknown error';
consequently no specialist invocation is ever attempted and no step
completes — each dispatched step fails with 'Unknown error', while (under
the sequential strategy) later steps whose dependencies can then never
complete are marked `skipped` rather than `failed`, and the run ends
`failed`. -/
theorem claimC10_zero_retries :
    (∀ (fn : Nat → Nat × Except String Nat) (m : Int) (delay : Nat), m ≤ 0 →
      withRetry fn m delay = ⟨.error "Unknown error", [], [], 0, 0⟩) ∧
    (runOutcome (executeRun c10Run [c10Orch, c10AgentA, c10AgentB] c10Client
        c10Cfg 10)).map
        (fun o => (o.invocations, stepStatuses o,
          o.steps.map (fun s => s.error), o.completedIds, o.status)) =
      some (0, [.failed, .skipped],
        [some "Unknown error", some "Dependências não satisfeitas"], [],
        "failed") := by
  refine ⟨?_, rfl⟩
  intro fn m delay hm
  have h0 : m.toNat = 0 := by omega
  show withRetryGo fn delay 1 m.toNat "Unknown error" [] [] 0 0 = _
  rw [h0]
  rfl

/-- Witness for the amended C10 theorem at a negative retry budget. -/
theorem claimC10_witness :
    withRetry (fun _ => ((0 : Nat), Except.ok (1 : Nat))) (-2) 5 =
      ⟨.error "Unknown error", [], [], 0, 0⟩ :=
  claimC10_zero_retries.1 _ (-2) 5 (by decide)

/-! ## C8: input-mapping resolution -/

def c8Step : Step :=
  { id := "s1", agentId := "a", agentName := "A", status := .completed,
    output := some (.obj [("x", .str "v")]) }

def c8Ctx : AccumulatedContext :=
  { userInput := [("goal", .str "g")], completedSteps := [c8Step],
    globalContext := [] }

/-- C8: `resolveInputMapping` never fails as a whole.  Each mapping entry is
resolved independently of the others (conjunct 1, so an unresolvable path
affects only its own target field); a `steps.<id>.output...` path whose step
has not completed assigns nothing to its target field (conjunct 2); a
`user_input.<field>` path with a missing field assigns `undefined`
(conjunct 3); and a source path whose first dotted segment is not one of the
recognized resolvers is copied through as a literal constant (conjunct 4). -/
theorem claimC8_resolver_total :
    (∀ (ctx : AccumulatedContext) (m1 m2 : List (String × String)) (t src : String),
      resolveInputMapping (m1 ++ (t, src) :: m2) ctx =
        resolveInputMapping m1 ctx ++
          ((resolveEntry ctx src).map (fun v => (t, v))).toList ++
          resolveInputMapping m2 ctx) ∧
    (∀ (ctx : AccumulatedContext) (src sid : String) (sub : List String),
      splitOnChar '.' src = "steps" :: sid :: sub →
      ctx.completedSteps.find? (fun s => s.id == sid) = none →
      resolveEntry ctx src = none) ∧
    (∀ (ctx : AccumulatedContext) (src f : String),
      splitOnChar '.' src = ["user_input", f] →
      jrecGet ctx.userInput f = none →
      resolveEntry ctx src = some none) ∧
    (∀ (ctx : AccumulatedContext) (src p0 : String) (rest : List String),
      splitOnChar '.' src = p0 :: rest →
      p0 ≠ "user_input" → p0 ≠ "steps" → p0 ≠ "context" →
      p0 ≠ "last_output" → p0 ≠ "all_outputs" →
      resolveEntry ctx src = some (some (.str src))) := by
  refine ⟨?_, ?_, ?_, ?_⟩
  · intro ctx m1 m2 t src
    cases h : resolveEntry ctx src with
    | none => simp [resolveInputMapping, List.filterMap_append, h]
    | some v => simp [resolveInputMapping, List.filterMap_append, h]
  · intro ctx src sid sub hsplit hfind
    simp only [resolveEntry, hsplit]
    by_cases h1 : sid = "user_input"
    all_goals simp [hfind]
  · intro ctx src f hsplit hmiss
    simp only [resolveEntry, hsplit]
    simp [hmiss]
  · intro ctx src p0 rest hsplit h1 h2 h3 h4 h5
    simp only [resolveEntry, hsplit]
    simp [h1, h2, h3, h4, h5]

/-- Witness for C8 at concrete mappings and context. -/
theorem claimC8_witness :
    (resolveInputMapping
        ([("k0", "user_input.goal")] ++ ("bad", "steps.zz.output") :: [("k2", "whatever")])
        c8Ctx =
      resolveInputMapping [("k0", "user_input.goal")] c8Ctx ++
        ((resolveEntry c8Ctx "steps.zz.output").map (fun v => ("bad", v))).toList ++
        resolveInputMapping [("k2", "whatever")] c8Ctx) ∧
    resolveEntry c8Ctx "steps.zz.output" = none ∧
    resolveEntry c8Ctx "user_input.nope" = some none ∧
    resolveEntry c8Ctx "whatever" = some (some (.str "whatever")) :=
  ⟨claimC8_resolver_total.1 c8Ctx [("k0", "user_input.goal")] [("k2", "whatever")]
      "bad" "steps.zz.output",
   claimC8_resolver_total.2.1 c8Ctx "steps.zz.output" "zz" ["output"] rfl rfl,
   claimC8_resolver_total.2.2.1 c8Ctx "user_input.nope" "nope" rfl rfl,
   claimC8_resolver_total.2.2.2 c8Ctx "whatever" "whatever" [] rfl (by decide)
     (by decide) (by decide) (by decide) (by decide)⟩

/-! ## C5/C6: plan-builder invariants -/

theorem mem_mapWithIndex {α β : Type} (f : Nat → α → β) :
    ∀ (s : Nat) (l : List α) (b : β), b ∈ mapWithIndex f s l →
      ∃ i a, i < l.length ∧ l.get? i = some a ∧ b = f (s + i) a := by
  intro s l
  induction l generalizing s with
  | nil => intro b hb; simp [mapWithIndex] at hb
  | cons x xs ih =>
    intro b hb
    simp only [mapWithIndex, List.mem_cons] at hb
    rcases hb with h | h
    · exact ⟨0, x, by simp, by simp, by simpa using h⟩
    · obtain ⟨i, a, hi, hg, hb⟩ := ih (s + 1) b h
      refine ⟨i + 1, a, by simpa using hi, by simpa using hg, ?_⟩
      rw [hb]
      congr 1
      omega

theorem mapWithIndex_mem_of_get? {α β : Type} (f : Nat → α → β) :
    ∀ (s : Nat) (l : List α) (i : Nat) (a : α), l.get? i = some a →
      f (s + i) a ∈ mapWithIndex f s l := by
  intro s l
  induction l generalizing s with
  | nil => intro i a h; simp at h
  | cons x xs ih =>
    intro i a h
    cases i with
    | zero =>
      simp only [List.get?] at h
      cases h
      simp [mapWithIndex]
    | succ i =>
      simp only [List.get?] at h
      have := ih (s + 1) i a h
      have heq : s + 1 + i = s + (i + 1) := by omega
      rw [heq] at this
      simp [mapWithIndex, this]

theorem mapWithIndex_map {α β γ : Type} (f : Nat → α → β) (g : β → γ) :
    ∀ (s : Nat) (l : List α),
      (mapWithIndex f s l).map g = mapWithIndex (fun i a => g (f i a)) s l := by
  intro s l
  induction l generalizing s with
  | nil => rfl
  | cons x xs ih => simp [mapWithIndex, ih]

theorem mapWithIndex_indep {α β : Type} (g : α → β) :
    ∀ (s : Nat) (l : List α), mapWithIndex (fun _ a => g a) s l = l.map g := by
  intro s l
  induction l generalizing s with
  | nil => rfl
  | cons x xs ih => simp [mapWithIndex, ih]

theorem nodup_mapWithIndex_inj {α β : Type} [DecidableEq β] (f : Nat → β)
    (hf : ∀ i j, f i = f j → i = j) :
    ∀ (s : Nat) (l : List α), (mapWithIndex (fun i _ => f i) s l).Nodup := by
  intro s l
  induction l generalizing s with
  | nil => simp [mapWithIndex]
  | cons x xs ih =>
    simp only [mapWithIndex, List.nodup_cons]
    refine ⟨?_, ih (s + 1)⟩
    intro hmem
    obtain ⟨i, a, _, _, hb⟩ := mem_mapWithIndex _ _ _ _ hmem
    have := hf _ _ hb
    omega

/-- Sanitization does not change the set (or order) of stepIds. -/
theorem sanitizePlan_stepIds (plan : ExecutionPlan) :
    (sanitizePlan plan).steps.map (fun s => s.stepId) =
      plan.steps.map (fun s => s.stepId) := by
  simp only [sanitizePlan]
  rw [mapWithIndex_map]
  exact mapWithIndex_indep (fun s => s.stepId) 0 plan.steps

/-- The dependency-safety properties the claim states, for one plan. -/
def planDepSafe (plan : ExecutionPlan) : Prop :=
  (∀ s ∈ plan.steps, ∀ d ∈ s.dependsOn,
    d ∈ plan.steps.map (fun t => t.stepId)) ∧
  (∀ s ∈ plan.steps, s.stepId ∉ s.dependsOn) ∧
  (∀ s0, plan.steps.head? = some s0 → s0.dependsOn = [])

theorem sanitizePlan_dep_safety (plan : ExecutionPlan) :
    planDepSafe (sanitizePlan plan) := by
  refine ⟨?_, ?_, ?_⟩
  · intro s hs d hd
    rw [sanitizePlan_stepIds]
    simp only [sanitizePlan] at hs
    obtain ⟨i, a, _, _, hb⟩ := mem_mapWithIndex _ _ _ _ hs
    subst hb
    simp only at hd
    rw [List.mem_filter] at hd
    have hd1 := hd.1
    by_cases hi : 0 + i = 0
    · rw [if_pos hi] at hd1
      simp at hd1
    · rw [if_neg hi] at hd1
      rw [List.mem_filter] at hd1
      have := hd1.2
      simpa using this
  · intro s hs
    simp only [sanitizePlan] at hs
    obtain ⟨i, a, _, _, hb⟩ := mem_mapWithIndex _ _ _ _ hs
    subst hb
    intro hmem
    simp only at hmem
    rw [List.mem_filter] at hmem
    have := hmem.2
    simp at this
  · intro s0 h0
    simp only [sanitizePlan] at h0
    cases hsteps : plan.steps with
    | nil => rw [hsteps] at h0; simp [mapWithIndex] at h0
    | cons x xs =>
      rw [hsteps] at h0
      simp only [mapWithIndex, List.head?_cons, Option.some.injEq] at h0
      subst h0
      simp

/-- C5: every plan the Plan Builder produces — the LLM-planned mode for any
completion-client plan payload, and the rule-derived sequential/parallel
modes — has only dependency ids that are stepIds of the same plan, no
self-dependencies, and an empty dependency list on the first step. -/
theorem claimC5_dependency_safety :
    (∀ (goal : String) (agents : List Agent) (pd : PlanData),
      planDepSafe (createExecutionPlan goal agents pd)) ∧
    (∀ (goal : String) (agents : List Agent) (mode : String),
      planDepSafe (ruleDerivedPlan goal agents mode)) := by
  constructor
  · intro goal agents pd
    exact sanitizePlan_dep_safety _
  · intro goal agents mode
    refine ⟨?_, ?_, ?_⟩
    · intro s hs d hd
      simp only [ruleDerivedPlan] at hs ⊢
      obtain ⟨i, a, hi, hget, hb⟩ := mem_mapWithIndex _ _ _ _ hs
      subst hb
      simp only at hd
      by_cases hc : mode == "sequencial" ∧ 0 + i > 0
      · rw [if_pos hc] at hd
        simp only [List.mem_singleton] at hd
        subst hd
        rw [mapWithIndex_map]
        have hi1 : 1 ≤ i := by
          rcases hc with ⟨_, hgt⟩
          omega
        have hget2 : ∃ b, agents.get? (i - 1) = some b := by
          have : i - 1 < agents.length := by omega
          exact ⟨agents.get ⟨i - 1, this⟩, List.get?_eq_get this⟩
        obtain ⟨b, hb2⟩ := hget2
        have hmem := mapWithIndex_mem_of_get?
          (fun i _ => ("step" ++ Nat.repr (i + 1) : String)) 0 agents (i - 1) b hb2
        simp only at hmem
        have heq : 0 + (i - 1) + 1 = 0 + i := by omega
        rw [heq] at hmem
        simpa using hmem
      · rw [if_neg hc] at hd
        simp at hd
    · intro s hs
      simp only [ruleDerivedPlan] at hs
      obtain ⟨i, a, hi, hget, hb⟩ := mem_mapWithIndex _ _ _ _ hs
      subst hb
      intro hmem
      simp only at hmem
      by_cases hc : mode == "sequencial" ∧ 0 + i > 0
      · rw [if_pos hc] at hmem
        simp only [List.mem_singleton] at hmem
        have := stepIdFor_injective (i := 0 + i + 1) (j := 0 + i) hmem
        omega
      · rw [if_neg hc] at hmem
        simp at hmem
    · intro s0 h0
      simp only [ruleDerivedPlan] at h0
      cases hsteps : agents with
      | nil => rw [hsteps] at h0; simp [mapWithIndex] at h0
      | cons x xs =>
        rw [hsteps] at h0
        simp only [mapWithIndex, List.head?_cons, Option.some.injEq] at h0
        subst h0
        simp

/-- Witness for C5 on a concrete rule-derived sequential plan: step2's
declared dependency `step1` is a stepId of the same plan. -/
theorem claimC5_witness :
    "step1" ∈ ((ruleDerivedPlan "g" [c10AgentA, c10AgentB] "sequencial").steps.map
      (fun t => t.stepId)) :=
  (claimC5_dependency_safety.2 "g" [c10AgentA, c10AgentB] "sequencial").1
    { stepId := "step2", agentId := "b", agentName := "BB",
      description := "Executar BB", inputMapping := [], dependsOn := ["step1"],
      priority := 1 }
    (by decide) "step1" (by decide)

def dupPlanData : PlanData :=
  { reasoning := "r",
    steps :=
      [{ stepId := "a", agentId := "x", description := "", inputMapping := [],
         dependsOn := [] },
       { stepId := "a", agentId := "x", description := "", inputMapping := [],
         dependsOn := [] }],
    strategy := "sequential" }

/-- C6 counterexample: a completion-client plan payload that repeats the
stepId "a" yields an ExecutionPlan whose stepIds are not pairwise distinct —
`createExecutionPlan` never deduplicates stepIds. -/
theorem claimC6_counterexample :
    (createExecutionPlan "g" [] dupPlanData).steps.map (fun s => s.stepId) =
      ["a", "a"] ∧
    ¬ ((createExecutionPlan "g" [] dupPlanData).steps.map
      (fun s => s.stepId)).Nodup :=
  ⟨rfl, by decide⟩

/-- C6 (amended): rule-derived plans have pairwise-distinct stepIds
(`step1..stepN`); LLM-planned plans keep exactly the stepIds of the
completion-client payload (empty ones replaced by the positional default
`step<i+1>`), so their distinctness holds only when the payload provides
distinct ids. -/
theorem claimC6_stepIds :
    (∀ (goal : String) (agents : List Agent) (mode : String),
      ((ruleDerivedPlan goal agents mode).steps.map (fun s => s.stepId)).Nodup) ∧
    (∀ (goal : String) (agents : List Agent) (pd : PlanData),
      (createExecutionPlan goal agents pd).steps.map (fun s => s.stepId) =
        mapWithIndex (fun i s =>
          if s.stepId == "" then "step" ++ Nat.repr (i + 1) else s.stepId)
          0 pd.steps) := by
  constructor
  · intro goal agents mode
    simp only [ruleDerivedPlan]
    rw [mapWithIndex_map]
    exact nodup_mapWithIndex_inj (fun i => "step" ++ Nat.repr (i + 1))
      (fun i j h => by
        have := stepIdFor_injective (i := i + 1) (j := j + 1) h
        omega) 0 agents
  · intro goal agents pd
    simp only [createExecutionPlan]
    rw [sanitizePlan_stepIds, mapWithIndex_map]

/-! ## Scheduler settlement and monotonicity lemmas -/

theorem mem_setAdd_self (l : List String) (x : String) : x ∈ setAdd l x := by
  simp only [setAdd]
  split
  · next h => simpa using h
  · simp

theorem mem_setAdd_of_mem (l : List String) (x y : String) (h : y ∈ l) :
    y ∈ setAdd l x := by
  simp only [setAdd]
  split
  · exact h
  · simp [h]

theorem executeStep_settles (env : StepExecEnv) (st : RunState)
    (ps : PlanStep) :
    ps.stepId ∈ (executeStep env st ps).completedIds ∨
    ps.stepId ∈ (executeStep env st ps).failedIds := by
  simp only [executeStep]
  split
  · right; exact mem_setAdd_self _ _
  · split
    · split
      · left; exact mem_setAdd_self _ _
      · right; exact mem_setAdd_self _ _
    · right; exact mem_setAdd_self _ _

theorem executeStep_mono_completed (env : StepExecEnv) (st : RunState)
    (ps : PlanStep) (y : String) (h : y ∈ st.completedIds) :
    y ∈ (executeStep env st ps).completedIds := by
  simp only [executeStep]
  split
  · exact h
  · split
    · split
      · exact mem_setAdd_of_mem _ _ _ h
      · exact h
    · exact h

theorem executeStep_mono_failed (env : StepExecEnv) (st : RunState)
    (ps : PlanStep) (y : String) (h : y ∈ st.failedIds) :
    y ∈ (executeStep env st ps).failedIds := by
  simp only [executeStep]
  split
  · exact mem_setAdd_of_mem _ _ _ h
  · split
    · split
      · exact h
      · exact mem_setAdd_of_mem _ _ _ h
    · exact mem_setAdd_of_mem _ _ _ h

theorem markSkippedSequential_completedIds (st : RunState) (ps : PlanStep)
    (n : String) :
    (markSkippedSequential st ps n).completedIds = st.completedIds := rfl

theorem markSkippedSequential_failed_self (st : RunState) (ps : PlanStep)
    (n : String) :
    ps.stepId ∈ (markSkippedSequential st ps n).failedIds :=
  mem_setAdd_self _ _

theorem markSkippedSequential_failed_mono (st : RunState) (ps : PlanStep)
    (n y : String) (h : y ∈ st.failedIds) :
    y ∈ (markSkippedSequential st ps n).failedIds :=
  mem_setAdd_of_mem _ _ _ h

theorem seqStepAction_eq_or (env : StepExecEnv) (allSteps : List PlanStep)
    (i : Nat) (st : RunState) (ps : PlanStep) :
    seqStepAction env allSteps i st ps =
        markSkippedSequential st ps env.orchestratorName ∨
    seqStepAction env allSteps i st ps = executeStep env st ps := by
  unfold seqStepAction
  exact ite_eq_or_eq _ _ _

theorem seqStepAction_mono_completed (env : StepExecEnv)
    (allSteps : List PlanStep) (i : Nat) (st : RunState) (ps : PlanStep)
    (y : String) (h : y ∈ st.completedIds) :
    y ∈ (seqStepAction env allSteps i st ps).completedIds := by
  rcases seqStepAction_eq_or env allSteps i st ps with heq | heq <;> rw [heq]
  · rw [markSkippedSequential_completedIds]; exact h
  · exact executeStep_mono_completed _ _ _ _ h

theorem seqStepAction_mono_failed (env : StepExecEnv)
    (allSteps : List PlanStep) (i : Nat) (st : RunState) (ps : PlanStep)
    (y : String) (h : y ∈ st.failedIds) :
    y ∈ (seqStepAction env allSteps i st ps).failedIds := by
  rcases seqStepAction_eq_or env allSteps i st ps with heq | heq <;> rw [heq]
  · exact markSkippedSequential_failed_mono _ _ _ _ h
  · exact executeStep_mono_failed _ _ _ _ h

theorem seqStepAction_settles (env : StepExecEnv) (allSteps : List PlanStep)
    (i : Nat) (st : RunState) (ps : PlanStep) :
    ps.stepId ∈ (seqStepAction env allSteps i st ps).completedIds ∨
    ps.stepId ∈ (seqStepAction env allSteps i st ps).failedIds := by
  rcases seqStepAction_eq_or env allSteps i st ps with heq | heq <;> rw [heq]
  · right; exact markSkippedSequential_failed_self _ _ _
  · exact executeStep_settles _ _ _

theorem sequentialLoopGo_mono (env : StepExecEnv) (allSteps : List PlanStep) :
    ∀ (rest : List PlanStep) (i : Nat) (st : RunState) (y : String),
      (y ∈ st.completedIds →
        y ∈ (sequentialLoopGo env allSteps i rest st).completedIds) ∧
      (y ∈ st.failedIds →
        y ∈ (sequentialLoopGo env allSteps i rest st).failedIds) := by
  intro rest
  induction rest with
  | nil => intro i st y; exact ⟨id, id⟩
  | cons ps rest ih =>
    intro i st y
    simp only [sequentialLoopGo]
    exact ⟨fun h => (ih (i + 1) _ y).1
        (seqStepAction_mono_completed env allSteps i st ps y h),
      fun h => (ih (i + 1) _ y).2
        (seqStepAction_mono_failed env allSteps i st ps y h)⟩

theorem sequentialLoopGo_settles (env : StepExecEnv) (allSteps : List PlanStep) :
    ∀ (rest : List PlanStep) (i : Nat) (st : RunState) (ps : PlanStep),
      ps ∈ rest →
      ps.stepId ∈ (sequentialLoopGo env allSteps i rest st).completedIds ∨
      ps.stepId ∈ (sequentialLoopGo env allSteps i rest st).failedIds := by
  intro rest
  induction rest with
  | nil => intro i st ps h; simp at h
  | cons q rest ih =>
    intro i st ps hmem
    rcases List.mem_cons.mp hmem with rfl | h
    · simp only [sequentialLoopGo]
      rcases seqStepAction_settles env allSteps i st ps with h1 | h1
      · left
        exact (sequentialLoopGo_mono env allSteps rest (i + 1) _ _).1 h1
      · right
        exact (sequentialLoopGo_mono env allSteps rest (i + 1) _ _).2 h1
    · simp only [sequentialLoopGo]
      exact ih (i + 1) _ ps h

theorem foldl_markSkippedParallel_completedIds (l : List PlanStep) :
    ∀ st : RunState,
      (l.foldl markSkippedParallel st).completedIds = st.completedIds := by
  induction l with
  | nil => intro st; rfl
  | cons ps rest ih => intro st; rw [List.foldl_cons, ih]; rfl

theorem foldl_markSkippedParallel_failed_mono (l : List PlanStep) :
    ∀ (st : RunState) (y : String), y ∈ st.failedIds →
      y ∈ (l.foldl markSkippedParallel st).failedIds := by
  induction l with
  | nil => intro st y h; exact h
  | cons ps rest ih =>
    intro st y h
    rw [List.foldl_cons]
    exact ih _ y (mem_setAdd_of_mem _ _ _ h)

theorem foldl_markSkippedParallel_mem (l : List PlanStep) :
    ∀ (st : RunState) (ps : PlanStep), ps ∈ l →
      ps.stepId ∈ (l.foldl markSkippedParallel st).failedIds := by
  induction l with
  | nil => intro st ps h; simp at h
  | cons q rest ih =>
    intro st ps hmem
    rcases List.mem_cons.mp hmem with rfl | h
    · rw [List.foldl_cons]
      exact foldl_markSkippedParallel_failed_mono rest _ _
        (mem_setAdd_self _ _)
    · rw [List.foldl_cons]
      exact ih _ ps h

theorem parallelLoopGo_exit (env : StepExecEnv) (planSteps : List PlanStep) :
    ∀ (fuel : Nat) (st st2 : RunState),
      parallelLoopGo env planSteps fuel st = some st2 →
      planSteps.length ≤ st2.completedIds.length + st2.failedIds.length ∨
      (∀ ps ∈ planSteps,
        ps.stepId ∈ st2.completedIds ∨ ps.stepId ∈ st2.failedIds) := by
  intro fuel
  induction fuel with
  | zero => intro st st2 h; simp [parallelLoopGo] at h
  | succ fuel ih =>
    intro st st2 h
    simp only [parallelLoopGo] at h
    split at h
    · next hcond =>
      split at h
      · next hready =>
        right
        rw [Option.some.injEq] at h
        subst h
        intro ps hps
        by_cases hc : ps.stepId ∈ st.completedIds
        · left
          rw [foldl_markSkippedParallel_completedIds]
          exact hc
        · right
          by_cases hf : ps.stepId ∈ st.failedIds
          · exact foldl_markSkippedParallel_failed_mono _ _ _ hf
          · apply foldl_markSkippedParallel_mem
            rw [List.mem_filter]
            refine ⟨hps, ?_⟩
            simp [hc, hf]
      · next hready => exact ih _ _ h
    · next hcond =>
      left
      rw [Option.some.injEq] at h
      subst h
      omega

/-! ## C1: final run status -/

theorem finishRun_ok (goal : String) (client : ClientModel) (cs : String)
    (plan : ExecutionPlan) (st : RunState) (o : ExecOutcome)
    (h : finishRun goal client cs plan st = .ok o) :
    o.steps = st.steps ∧ o.completedIds = st.completedIds ∧
    o.failedIds = st.failedIds ∧ o.plan = plan ∧
    o.status = (if st.failedIds.length > 0 ∧ st.completedIds.length = 0
      then "failed" else "completed") := by
  unfold finishRun at h
  split at h
  · simp at h
  · simp at h
  · rw [RunResult.ok.injEq] at h
    subst h
    exact ⟨rfl, rfl, rfl, rfl, rfl⟩

theorem executePlanned_ok_cases (run : RunRecord) (agents : List Agent)
    (client : ClientModel) (config : ExecutionConfig) (fuel : Nat)
    (orchestrator : Agent) (availableAgents : List Agent) (cs : String)
    (planResult : AsyncResult ExecutionPlan) (o : ExecOutcome)
    (h : executePlanned run agents client config fuel orchestrator
      availableAgents cs planResult = .ok o) :
    ∃ (env : StepExecEnv) (orchName : String) (st : RunState),
      (parallelLoopGo env o.plan.steps fuel (initialRunState orchName o.plan) =
          some st ∨
       st = sequentialLoopGo env o.plan.steps 0 o.plan.steps
         (initialRunState orchName o.plan)) ∧
      o.steps = st.steps ∧ o.completedIds = st.completedIds ∧
      o.failedIds = st.failedIds ∧
      o.status = (if st.failedIds.length > 0 ∧ st.completedIds.length = 0
        then "failed" else "completed") := by
  cases planResult with
  | never =>
    simp only [executePlanned] at h
    split at h <;> simp at h
  | resolves d v =>
    cases v with
    | error e =>
      simp only [executePlanned] at h
      split at h <;> simp at h
    | ok plan =>
      simp only [executePlanned] at h
      split at h
      · simp at h
      · split at h
        · simp at h
        · next st heqloop =>
          obtain ⟨h1, h2, h3, h4, h5⟩ := finishRun_ok _ _ _ _ _ _ h
          rw [h4]
          split at heqloop
          · exact ⟨_, _, st, Or.inl heqloop, h1, h2, h3, h5⟩
          · rw [Option.some.injEq] at heqloop
            exact ⟨_, _, st, Or.inr heqloop.symm, h1, h2, h3, h5⟩

/-- Every successful `executeRun` outcome is the consolidation tail of a
scheduler-loop final state. -/
theorem executeRun_ok_cases (run : RunRecord) (agents : List Agent)
    (client : ClientModel) (config : ExecutionConfig) (fuel : Nat)
    (o : ExecOutcome) (h : executeRun run agents client config fuel = .ok o) :
    ∃ (env : StepExecEnv) (orchName : String) (st : RunState),
      (parallelLoopGo env o.plan.steps fuel (initialRunState orchName o.plan) =
          some st ∨
       st = sequentialLoopGo env o.plan.steps 0 o.plan.steps
         (initialRunState orchName o.plan)) ∧
      o.steps = st.steps ∧ o.completedIds = st.completedIds ∧
      o.failedIds = st.failedIds ∧
      o.status = (if st.failedIds.length > 0 ∧ st.completedIds.length = 0
        then "failed" else "completed") := by
  unfold executeRun at h
  split at h
  · simp at h
  · exact executePlanned_ok_cases _ _ _ _ _ _ _ _ _ _ h

/-- C1 (amended): for every run that reaches the end of step execution and
whose consolidation resolves (`executeRun` returns a finished run), the
final status is 'failed' iff no step completed **and** at least one step
failed or was skipped; in particular, for plans with at least one step, the
status is 'failed' iff zero steps completed, and any run with at least one
completed step is reported 'completed' even when other steps failed or were
skipped.  (A zero-step plan yields status 'completed' despite zero
completions, and a thrown consolidation error marks the run 'failed'
regardless, which is why the two caveats are needed.) -/
theorem claimC1_run_status (run : RunRecord) (agents : List Agent)
    (client : ClientModel) (config : ExecutionConfig) (fuel : Nat)
    (o : ExecOutcome) (h : executeRun run agents client config fuel = .ok o) :
    (o.status = "failed" ↔ (o.failedIds ≠ [] ∧ o.completedIds = [])) ∧
    (o.plan.steps ≠ [] → (o.status = "failed" ↔ o.completedIds = [])) := by
  obtain ⟨env, orchName, st, hloop, hsteps, hcomp, hfail, hstat⟩ :=
    executeRun_ok_cases run agents client config fuel o h
  have hsettle : st.completedIds = [] → o.plan.steps ≠ [] →
      st.failedIds ≠ [] := by
    intro hc0 hne
    rcases hloop with hpar | hseq
    · rcases parallelLoopGo_exit env o.plan.steps fuel _ st hpar with hlen | hall
      · intro hfe
        rw [hc0, hfe] at hlen
        simp only [List.length_nil, Nat.add_zero, Nat.le_zero] at hlen
        exact hne (List.length_eq_zero.mp hlen)
      · obtain ⟨ps, hps⟩ := List.exists_mem_of_ne_nil _ hne
        rcases hall ps hps with hin | hin
        · rw [hc0] at hin; simp at hin
        · intro hfe; rw [hfe] at hin; simp at hin
    · obtain ⟨ps, hps⟩ := List.exists_mem_of_ne_nil _ hne
      rcases sequentialLoopGo_settles env o.plan.steps o.plan.steps 0
          (initialRunState orchName o.plan) ps hps with hin | hin
      · rw [← hseq, hc0] at hin; simp at hin
      · intro hfe; rw [← hseq, hfe] at hin; simp at hin
  constructor
  · rw [hstat, hcomp, hfail]
    by_cases hc : st.failedIds.length > 0 ∧ st.completedIds.length = 0
    · rw [if_pos hc]
      constructor
      · intro _
        exact ⟨List.length_pos.mp hc.1, List.length_eq_zero.mp hc.2⟩
      · intro _; rfl
    · rw [if_neg hc]
      constructor
      · intro habs; exact absurd habs (by decide)
      · rintro ⟨hne, heq⟩
        exact absurd ⟨List.length_pos.mpr hne, by simp [heq]⟩ hc
  · intro hne
    rw [hstat, hcomp]
    by_cases hc0 : st.completedIds = []
    · have hf := hsettle hc0 hne
      rw [if_pos ⟨List.length_pos.mpr hf, by simp [hc0]⟩]
      simp [hc0]
    · rw [if_neg (fun hcc => hc0 (List.length_eq_zero.mp hcc.2))]
      constructor
      · intro habs; exact absurd habs (by decide)
      · intro h0; exact absurd h0 hc0

def c1Orch : Agent :=
  { id := "orch", type := .orchestrator, name := "Orch", model := "gpt",
    allowedAgents := ["a"],
    orchestrationConfig :=
      some { executionMode := "llm", consolidationStrategy := "concatenate" } }

def c1Agent : Agent :=
  { id := "a", type := .specialist, name := "AA", model := "gpt" }

/-- A completion client whose LLM plan payload has zero steps. -/
def c1EmptyClient : ClientModel :=
  { planData := .resolves 0
      (.ok { reasoning := "r", steps := [], strategy := "sequential" }) }

def c1Run : RunRecord := { orchestratorId := "orch", goal := "g" }

/-- C1 counterexample: a run over an LLM plan with zero steps reaches the
end of step execution and consolidation with zero completed steps, yet its
final status is 'completed' — refuting "the run's final status is 'failed'
if and only if zero steps completed". -/
theorem claimC1_counterexample :
    (runOutcome (executeRun c1Run [c1Orch, c1Agent] c1EmptyClient
        DEFAULT_CONFIG 10)).map (fun o => (o.status, o.completedIds.length)) =
      some ("completed", 0) := rfl

def emptyOutcome : ExecOutcome :=
  { status := "", steps := [], consolidatedOutput := "", totalTokens := 0,
    completedIds := [], failedIds := [], logs := [], invocations := 0,
    plan := { goal := "", reasoning := "", steps := [], estimatedSteps := 0,
              strategy := "" } }

def c1wOutcome : ExecOutcome :=
  (runOutcome (executeRun c10Run [c10Orch, c10AgentA, c10AgentB] c10Client
    c10Cfg 10)).getD emptyOutcome

/-- Witness for the amended C1 theorem on a concrete finished run. -/
theorem claimC1_witness :
    (c1wOutcome.status = "failed" ↔
      (c1wOutcome.failedIds ≠ [] ∧ c1wOutcome.completedIds = [])) ∧
    (c1wOutcome.plan.steps ≠ [] →
      (c1wOutcome.status = "failed" ↔ c1wOutcome.completedIds = [])) :=
  claimC1_run_status c10Run [c10Orch, c10AgentA, c10AgentB] c10Client c10Cfg
    10 c1wOutcome rfl

/-! ## C9: completed steps carry defined, truthy outputs -/

/-- The completion invariant on one step record: a `completed` status comes
with a defined, JS-truthy output (the `result.success && result.output`
gate of executor.ts:883). -/
def stepOutputOk (s : Step) : Bool :=
  !(s.status == StepStatus.completed) || jsTruthy s.output

def stepsOk (steps : List Step) : Bool := steps.all stepOutputOk

theorem stepsOk_updateStepRecord (id : String) (f : Step → Step)
    (hf : ∀ s, stepOutputOk (f s) = true) :
    ∀ steps : List Step, stepsOk steps = true →
      stepsOk (updateStepRecord steps id f) = true := by
  intro steps
  induction steps with
  | nil => intro h; exact h
  | cons s rest ih =>
    intro h
    simp only [stepsOk, List.all_cons, Bool.and_eq_true] at h
    simp only [updateStepRecord]
    split
    · simp only [stepsOk, List.all_cons, Bool.and_eq_true]
      exact ⟨hf s, h.2⟩
    · simp only [stepsOk, List.all_cons, Bool.and_eq_true]
      exact ⟨h.1, ih h.2⟩

theorem executeStep_stepsOk (env : StepExecEnv) (st : RunState)
    (ps : PlanStep) (h : stepsOk st.steps = true) :
    stepsOk (executeStep env st ps).steps = true := by
  simp only [executeStep]
  split
  · refine stepsOk_updateStepRecord _ _ ?_ _ h
    intro s
    rfl
  · split
    · split
      · next hcond =>
        refine stepsOk_updateStepRecord _ _ ?_ _ h
        intro s
        have hout : jsTruthy _ = true := (Bool.and_eq_true .. ▸ hcond).2
        simp only [stepOutputOk]
        simp [hout]
      · refine stepsOk_updateStepRecord _ _ ?_ _ h
        intro s
        rfl
    · refine stepsOk_updateStepRecord _ _ ?_ _ h
      intro s
      rfl

theorem markSkippedParallel_stepsOk (st : RunState) (ps : PlanStep)
    (h : stepsOk st.steps = true) :
    stepsOk (markSkippedParallel st ps).steps = true := by
  refine stepsOk_updateStepRecord _ _ ?_ _ h
  intro s
  rfl

theorem markSkippedSequential_stepsOk (st : RunState) (ps : PlanStep)
    (n : String) (h : stepsOk st.steps = true) :
    stepsOk (markSkippedSequential st ps n).steps = true := by
  refine stepsOk_updateStepRecord _ _ ?_ _ h
  intro s
  rfl

theorem foldl_executeStep_stepsOk (env : StepExecEnv) (l : List PlanStep) :
    ∀ st : RunState, stepsOk st.steps = true →
      stepsOk ((l.foldl (executeStep env) st)).steps = true := by
  induction l with
  | nil => intro st h; exact h
  | cons ps rest ih =>
    intro st h
    rw [List.foldl_cons]
    exact ih _ (executeStep_stepsOk env st ps h)

theorem foldl_markSkippedParallel_stepsOk (l : List PlanStep) :
    ∀ st : RunState, stepsOk st.steps = true →
      stepsOk ((l.foldl markSkippedParallel st)).steps = true := by
  induction l with
  | nil => intro st h; exact h
  | cons ps rest ih =>
    intro st h
    rw [List.foldl_cons]
    exact ih _ (markSkippedParallel_stepsOk st ps h)

theorem parallelLoopGo_stepsOk (env : StepExecEnv)
    (planSteps : List PlanStep) :
    ∀ (fuel : Nat) (st st2 : RunState),
      parallelLoopGo env planSteps fuel st = some st2 →
      stepsOk st.steps = true → stepsOk st2.steps = true := by
  intro fuel
  induction fuel with
  | zero => intro st st2 h; simp [parallelLoopGo] at h
  | succ fuel ih =>
    intro st st2 h hok
    simp only [parallelLoopGo] at h
    split at h
    · split at h
      · rw [Option.some.injEq] at h
        subst h
        exact foldl_markSkippedParallel_stepsOk _ _ hok
      · exact ih _ _ h (foldl_executeStep_stepsOk _ _ _ hok)
    · rw [Option.some.injEq] at h
      subst h
      exact hok

theorem seqStepAction_stepsOk (env : StepExecEnv) (allSteps : List PlanStep)
    (i : Nat) (st : RunState) (ps : PlanStep) (h : stepsOk st.steps = true) :
    stepsOk (seqStepAction env allSteps i st ps).steps = true := by
  rcases seqStepAction_eq_or env allSteps i st ps with heq | heq <;> rw [heq]
  · exact markSkippedSequential_stepsOk _ _ _ h
  · exact executeStep_stepsOk _ _ _ h

theorem sequentialLoopGo_stepsOk (env : StepExecEnv)
    (allSteps : List PlanStep) :
    ∀ (l : List PlanStep) (i : Nat) (st : RunState), stepsOk st.steps = true →
      stepsOk (sequentialLoopGo env allSteps i l st).steps = true := by
  intro l
  induction l with
  | nil => intro i st h; exact h
  | cons ps rest ih =>
    intro i st h
    simp only [sequentialLoopGo]
    exact ih _ _ (seqStepAction_stepsOk env allSteps i st ps h)

theorem initialSteps_stepsOk (plan : ExecutionPlan) :
    stepsOk (initialSteps plan) = true := by
  simp only [initialSteps, stepsOk, List.all_eq_true]
  intro ps hps
  obtain ⟨q, -, rfl⟩ := List.mem_map.mp hps
  rfl

theorem executeRun_stepsOk (run : RunRecord) (agents : List Agent)
    (client : ClientModel) (config : ExecutionConfig) (fuel : Nat)
    (o : ExecOutcome) (h : executeRun run agents client config fuel = .ok o) :
    stepsOk o.steps = true := by
  obtain ⟨env, orchName, st, hloop, hsteps, -, -, -⟩ :=
    executeRun_ok_cases run agents client config fuel o h
  rw [hsteps]
  have h0 : stepsOk (initialRunState orchName o.plan).steps = true :=
    initialSteps_stepsOk o.plan
  rcases hloop with hpar | hseq
  · exact parallelLoopGo_stepsOk env o.plan.steps fuel _ st hpar h0
  · rw [hseq]
    exact sequentialLoopGo_stepsOk env o.plan.steps o.plan.steps 0 _ h0

theorem updateStepRecord_find (id : String) (f : Step → Step)
    (hf : ∀ s, (f s).id = s.id) :
    ∀ steps : List Step,
      (updateStepRecord steps id f).find? (fun s => s.id == id) =
        (steps.find? (fun s => s.id == id)).map f := by
  intro steps
  induction steps with
  | nil => rfl
  | cons s rest ih =>
    by_cases hs : (s.id == id) = true
    · have hp : ((f s).id == id) = true := by rw [hf s]; exact hs
      simp only [updateStepRecord]
      rw [if_pos hs]
      simp [List.find?_cons, hp, hs]
    · have hs' : (s.id == id) = false := by
        cases hb : (s.id == id) with
        | true => exact absurd hb hs
        | false => rfl
      simp only [updateStepRecord]
      rw [if_neg hs]
      simp [List.find?_cons, hs', ih]

def c9Orch : Agent :=
  { id := "orch9", type := .orchestrator, name := "Orch", model := "gpt",
    allowedAgents := ["a9"],
    orchestrationConfig :=
      some { executionMode := "sequencial", consolidationStrategy := "concatenate" } }

def c9Agent : Agent :=
  { id := "a9", type := .specialist, name := "Nine", model := "gpt" }

/-- A completion client whose specialist reply parses to the empty JSON
object. -/
def c9Client : ClientModel :=
  { invoke := fun _ _ =>
      { chat := .resolves 0
          (.ok { content := "\x7b\x7d", parsed := some (.obj []),
                 totalTokens := 1, cost := none }) } }

def c9Run : RunRecord := { orchestratorId := "orch9", goal := "g" }

/-- C9 counterexample: a specialist success whose output is the empty object
`\x7b\x7d` is recorded `completed` with that empty output object — JS object
truthiness accepts `\x7b\x7d` — refuting both "non-empty output object" and
"success with an empty output is recorded as failed". -/
theorem claimC9_counterexample :
    (runOutcome (executeRun c9Run [c9Orch, c9Agent] c9Client DEFAULT_CONFIG
        10)).map (fun o => o.steps.map (fun s => (s.status, s.output))) =
      some [(StepStatus.completed, some (JVal.obj []))] := rfl

/-- A completion client whose specialist reply parses to JSON `null` (a
defined but JS-falsy output). -/
def c9bClient : ClientModel :=
  { invoke := fun _ _ =>
      { chat := .resolves 0
          (.ok { content := "null", parsed := some .null,
                 totalTokens := 5, cost := none }) } }

def c9bRun : RunRecord := { orchestratorId := "orch9", goal := "g" }

def c9bOutcome : ExecOutcome :=
  (runOutcome (executeRun c9bRun [c9Orch, c9Agent] c9bClient DEFAULT_CONFIG
    10)).getD emptyOutcome

def c9bEnv : StepExecEnv :=
  mkStepExecEnv c9bRun [c9Orch, c9Agent] [c9Agent] "Orch" DEFAULT_CONFIG
    c9bClient

def c9bSt : RunState :=
  initialRunState "Orch" (ruleDerivedPlan "g" [c9Agent] "sequencial")

def c9bPlanStep : PlanStep :=
  { stepId := "step1", agentId := "a9", agentName := "Nine",
    description := "Executar Nine", inputMapping := [], dependsOn := [],
    priority := 0 }

def c9bResult : AgentResponse :=
  { success := true, output := some .null, tokensUsed := some 5,
    cost := none }

/-- C9 (amended): at the end of every finished `executeRun`, every step
whose final status is `completed` has a defined, JS-truthy output (so
consolidation only sees completed steps with defined outputs); and whenever
the specialist invoker reports success with a missing or JS-falsy output,
the step is recorded `failed` — its id joins the failed set, the completed
set is unchanged, and its record carries status `failed` with the error
message `result.error || 'Unknown error'`.  The truthiness gate
`result.success && result.output` does not require a non-empty output: an
empty output object is truthy and completes the step (see the
counterexample). -/
theorem claimC9_completed_outputs (run : RunRecord) (agents : List Agent)
    (client : ClientModel) (config : ExecutionConfig) (fuel : Nat)
    (o : ExecOutcome) (env : StepExecEnv) (st : RunState) (ps : PlanStep)
    (agent : Agent) (result : AgentResponse)
    (hrun : executeRun run agents client config fuel = RunResult.ok o)
    (hagent : env.agents.find? (fun a => a.id == ps.agentId) = some agent)
    (hres : ((executeStepWithRetry ps agent
        { userInput := env.userInput, completedSteps := st.completedSteps,
          globalContext := env.globalContext } env.config
        (env.invoke ps.stepId)).1).result = Except.ok result)
    (hsucc : result.success = true)
    (hfalsy : jsTruthy result.output = false) :
    (∀ s ∈ o.steps, s.status = StepStatus.completed →
        ∃ out, s.output = some out ∧ out.truthy = true) ∧
    ps.stepId ∈ (executeStep env st ps).failedIds ∧
    (executeStep env st ps).completedIds = st.completedIds ∧
    ∀ s0, st.steps.find? (fun s => s.id == ps.stepId) = some s0 →
      ∃ s1, (executeStep env st ps).steps.find? (fun s => s.id == ps.stepId)
          = some s1 ∧ s1.status = StepStatus.failed ∧
        s1.error = some (jsOrStr result.error "Unknown error") := by
  refine ⟨?_, ?_⟩
  · intro s hs hcomp
    have hok := executeRun_stepsOk run agents client config fuel o hrun
    simp only [stepsOk, List.all_eq_true] at hok
    have hsok := hok s hs
    simp only [stepOutputOk, hcomp] at hsok
    cases hout : s.output with
    | none => rw [hout] at hsok; simp [jsTruthy] at hsok
    | some out =>
      refine ⟨out, rfl, ?_⟩
      rw [hout] at hsok
      simpa [jsTruthy] using hsok
  · simp only [executeStep, hagent, hres, hsucc, hfalsy, Bool.true_and,
      Bool.false_eq_true, if_false]
    refine ⟨mem_setAdd_self _ _, by trivial, ?_⟩
    intro s0 hfind
    rw [updateStepRecord_find]
    · rw [hfind]
      exact ⟨_, rfl, rfl, rfl⟩
    · intro s
      split <;> rfl

/-- Witness for the amended C9 theorem: a run whose single specialist reply
parses to `null` (success with a defined but falsy output). -/
theorem claimC9_witness :
    c9bResult.success = true ∧ jsTruthy c9bResult.output = false ∧
    ((∀ s ∈ c9bOutcome.steps, s.status = StepStatus.completed →
        ∃ out, s.output = some out ∧ out.truthy = true) ∧
     c9bPlanStep.stepId ∈ (executeStep c9bEnv c9bSt c9bPlanStep).failedIds ∧
     (executeStep c9bEnv c9bSt c9bPlanStep).completedIds =
       c9bSt.completedIds ∧
     ∀ s0, c9bSt.steps.find? (fun s => s.id == c9bPlanStep.stepId) = some s0 →
       ∃ s1, (executeStep c9bEnv c9bSt c9bPlanStep).steps.find?
            (fun s => s.id == c9bPlanStep.stepId) = some s1 ∧
         s1.status = StepStatus.failed ∧
         s1.error = some (jsOrStr c9bResult.error "Unknown error")) :=
  ⟨rfl, rfl,
   claimC9_completed_outputs c9bRun [c9Orch, c9Agent] c9bClient
     DEFAULT_CONFIG 10 c9bOutcome c9bEnv c9bSt c9bPlanStep c9Agent c9bResult
     rfl rfl rfl rfl rfl⟩

/-! ## C2: skip propagation under a persistently failing first step -/

def c2Orch : Agent :=
  { id := "orch2", type := .orchestrator, name := "Orch", model := "gpt",
    allowedAgents := ["a2", "b2", "c2"],
    orchestrationConfig :=
      some { executionMode := "llm", consolidationStrategy := "concatenate" } }

def c2A : Agent :=
  { id := "a2", type := .specialist, name := "AA", model := "gpt" }

def c2B : Agent :=
  { id := "b2", type := .specialist, name := "BB", model := "gpt" }

def c2C : Agent :=
  { id := "c2", type := .specialist, name := "CC", model := "gpt" }

def c2Agents : List Agent := [c2Orch, c2A, c2B, c2C]

/-- The 3-step chain A→B→C under the parallel strategy. -/
def c2PlanData : PlanData :=
  { reasoning := "r",
    steps :=
      [{ stepId := "A", agentId := "a2", description := "",
         inputMapping := [], dependsOn := [] },
       { stepId := "B", agentId := "b2", description := "",
         inputMapping := [], dependsOn := ["A"] },
       { stepId := "C", agentId := "c2", description := "",
         inputMapping := [], dependsOn := ["B"] }],
    strategy := "parallel" }

/-- A completion client that delivers the A→B→C parallel plan and throws on
every specialist invocation attempt. -/
def c2Client : ClientModel :=
  { planData := .resolves 0 (.ok c2PlanData),
    invoke := fun _ _ => { chat := .resolves 0 (.error "boom") } }

def c2Run : RunRecord := { orchestratorId := "orch2", goal := "g2" }

def c2Available : List Agent := [c2A, c2B, c2C]

def c2Plan : ExecutionPlan :=
  createExecutionPlan c2Run.goal c2Available c2PlanData

def c2Steps : List PlanStep := c2Plan.steps

def c2Env : StepExecEnv :=
  mkStepExecEnv c2Run c2Agents c2Available c2Orch.name DEFAULT_CONFIG c2Client

def c2St0 : RunState := initialRunState c2Orch.name c2Plan

/-- The first plan step as the plan builder produces it. -/
def c2PSA : PlanStep :=
  { stepId := "A", agentId := "a2", agentName := "AA", description := "",
    inputMapping := [], dependsOn := [], priority := 0 }

/-- Executing step A never adds to the completed set: the specialist invoker
catches the thrown client error and reports `success:false`, failing the
step. -/
theorem c2_execA_completed (st : RunState) :
    (executeStep c2Env st c2PSA).completedIds = st.completedIds := rfl

theorem c2_execA_failed (st : RunState) :
    (executeStep c2Env st c2PSA).failedIds = setAdd st.failedIds "A" := rfl

/-- The parallel loop never exits from any state in which nothing has
completed and at most step A has failed: `getReadySteps` does not exclude
failed steps, so the already-failed A is dispatched again on every
iteration, no step ever completes, and the loop guard
`completed + failed < total` stays true forever. -/
theorem c2_loop_stagnates :
    ∀ (fuel : Nat) (st : RunState), st.completedIds = [] →
      st.failedIds = [] ∨ st.failedIds = ["A"] →
      parallelLoopGo c2Env c2Steps fuel st = none := by
  intro fuel
  induction fuel with
  | zero => intro st h1 h2; rfl
  | succ fuel ih =>
    intro st h1 h2
    have hcond : st.completedIds.length + st.failedIds.length <
        c2Steps.length := by
      have hlen3 : c2Steps.length = 3 := rfl
      have hf1 : st.failedIds.length ≤ 1 := by
        rcases h2 with h2 | h2 <;> simp [h2]
      rw [h1, hlen3]
      simp only [List.length_nil]
      omega
    have hready : getReadySteps c2Steps st.completedIds [] = [c2PSA] := by
      rw [h1]
      rfl
    simp only [parallelLoopGo]
    rw [if_pos hcond, hready]
    rw [if_neg (by decide : ¬(List.length [c2PSA] = 0))]
    rw [List.foldl_cons, List.foldl_nil]
    exact ih _ ((c2_execA_completed _).trans h1)
      (Or.inr ((c2_execA_failed _).trans
        (by rcases h2 with h2 | h2 <;> simp [setAdd, h2])))

/-- C2 (code bug): on the 3-step A→B→C parallel plan whose first step's
invocations always fail, `executeRun` never terminates — for every loop
budget it runs out of fuel instead of producing the claimed
A `failed` / B,C `skipped` / run `failed` outcome.  `getReadySteps`
(executor.ts:114-127) excludes only completed and running steps, never
failed ones, so the failed A is immediately ready again on each iteration
of the `while` loop at executor.ts:925, whose guard
`completed + failed < total` can then never become false; the skip-marking
branch (executor.ts:928-940) intended to produce the claimed outcome is
unreachable in this scenario. -/
theorem claimC2_infinite_loop (fuel : Nat) :
    executeRun c2Run c2Agents c2Client DEFAULT_CONFIG fuel =
      RunResult.fuelOut := by
  have hloop : parallelLoopGo c2Env c2Steps fuel c2St0 = none :=
    c2_loop_stagnates fuel c2St0 rfl (Or.inl rfl)
  show (match parallelLoopGo c2Env c2Steps fuel c2St0 with
    | none => RunResult.fuelOut
    | some st =>
      finishRun c2Run.goal c2Client "concatenate" c2Plan st) =
      RunResult.fuelOut
  rw [hloop]

/-! ## C7: sequential auto-chain and the `objetivo` field -/

theorem find_map_replace (k : String) (v : Option JVal) :
    ∀ l : StepInput, l.any (fun p => p.1 == k) = true →
      (l.map (fun p => if p.1 == k then (p.1, v) else p)).find?
        (fun p => p.1 == k) = some (k, v) := by
  intro l
  induction l with
  | nil => intro h; simp at h
  | cons p rest ih =>
    intro h
    simp only [List.map_cons]
    by_cases hp : (p.1 == k) = true
    · rw [if_pos hp]
      have hpk : p.1 = k := eq_of_beq hp
      subst hpk
      simp [List.find?_cons]
    · have hp' : (p.1 == k) = false := by
        cases hb : (p.1 == k) with
        | true => exact absurd hb hp
        | false => rfl
      rw [if_neg hp]
      simp only [List.any_cons, hp', Bool.false_or] at h
      rw [List.find?_cons]
      simp only [hp']
      exact ih h

theorem find_append_self (k : String) (v : Option JVal) :
    ∀ l : StepInput, l.any (fun p => p.1 == k) = false →
      (l ++ [(k, v)]).find? (fun p => p.1 == k) = some (k, v) := by
  intro l
  induction l with
  | nil => intro h; simp [List.find?_cons]
  | cons p rest ih =>
    intro h
    simp only [List.any_cons, Bool.or_eq_false_iff] at h
    simp [List.find?_cons, h.1, ih h.2]

/-- Reading back the field just written by the spread-style
`StepInput.set`. -/
theorem stepInput_get_set_self (input : StepInput) (k : String)
    (v : Option JVal) :
    StepInput.get (StepInput.set input k v) k = some v := by
  unfold StepInput.set StepInput.get
  split
  · next hany =>
    rw [find_map_replace k v input hany]
    rfl
  · next hany =>
    have h' : input.any (fun p => p.1 == k) = false := by
      cases hb : input.any (fun p => p.1 == k) with
      | true => exact absurd hb hany
      | false => rfl
    rw [find_append_self k v input h']
    rfl

/-- The auto-chain of executor.ts:653-663: with an empty input mapping and
exactly one completed step whose output is truthy, the resolved input is
the previous output, the previous agent name, and the goal field. -/
theorem computeStepInput_auto_chain (ps : PlanStep)
    (acc : AccumulatedContext) (s1 : Step) (out : JVal)
    (hmap : ps.inputMapping = []) (hsteps : acc.completedSteps = [s1])
    (hout : s1.output = some out) (htr : out.truthy = true) :
    computeStepInput ps acc =
      [("input_anterior", some out),
       ("agente_anterior", some (.str s1.agentName)),
       ("objetivo", jrecGet acc.userInput "goal")] := by
  simp only [computeStepInput, hmap, hsteps]
  simp [StepInput.set, StepInput.fieldTruthy, StepInput.getJS, jsTruthy,
    resolveInputMapping, hout, htr]

/-- The guaranteed goal field of executor.ts:666-676 for the first step:
with an empty input mapping and no completed step yet, the resolved input
carries `accCtx.userInput.goal` under `objetivo`. -/
theorem computeStepInput_goal_first (ps : PlanStep)
    (acc : AccumulatedContext) (hmap : ps.inputMapping = [])
    (hsteps : acc.completedSteps = []) :
    StepInput.get (computeStepInput ps acc) "objetivo" =
      some (jrecGet acc.userInput "goal") := by
  simp only [computeStepInput, hmap, hsteps]
  have h1 : ¬(¬(List.any ([] : List (String × String))
      (fun p => strStartsWith p.2 "steps.")) = true ∧
      List.length ([] : List Step) > 0) := by simp
  rw [if_neg h1]
  have h2 : List.length (resolveInputMapping [] acc) = 0 := rfl
  rw [if_pos h2]
  split <;> split
  · exact stepInput_get_set_self _ _ _
  · rfl
  · exact stepInput_get_set_self _ _ _
  · rfl

/-- The guaranteed goal field for an auto-chained step: with an empty input
mapping and one truthy-output completed step, the resolved input carries
`accCtx.userInput.goal` under `objetivo`. -/
theorem computeStepInput_goal_chain (ps : PlanStep)
    (acc : AccumulatedContext) (s1 : Step) (out : JVal)
    (hmap : ps.inputMapping = []) (hsteps : acc.completedSteps = [s1])
    (hout : s1.output = some out) (htr : out.truthy = true) :
    StepInput.get (computeStepInput ps acc) "objetivo" =
      some (jrecGet acc.userInput "goal") := by
  rw [computeStepInput_auto_chain ps acc s1 out hmap hsteps hout htr]
  rfl

def c7Orch : Agent :=
  { id := "orch7", type := .orchestrator, name := "Orch", model := "gpt",
    allowedAgents := ["a71", "a72"],
    orchestrationConfig :=
      some { executionMode := "sequencial", consolidationStrategy := "concatenate" } }

def c7A1 : Agent :=
  { id := "a71", type := .specialist, name := "Alpha", model := "gpt" }

def c7A2 : Agent :=
  { id := "a72", type := .specialist, name := "Beta", model := "gpt" }

def c7Agents : List Agent := [c7Orch, c7A1, c7A2]

/-- A completion client answering each of the two chained specialists with a
distinct parsed object. -/
def c7Client : ClientModel :=
  { invoke := fun stepId _ =>
      if stepId == "step1" then
        { chat := .resolves 0
            (.ok { content := "one", parsed := some (.obj [("a", .str "va")]),
                   totalTokens := 1, cost := none }) }
      else
        { chat := .resolves 0
            (.ok { content := "two", parsed := some (.obj [("b", .str "vb")]),
                   totalTokens := 1, cost := none }) } }

def c7Run : RunRecord := { orchestratorId := "orch7", goal := "g7" }

/-- The same run with a user context that defines its own `goal` key. -/
def c7xRun : RunRecord :=
  { orchestratorId := "orch7", goal := "g7",
    context := [("goal", .str "override")] }

/-- C7 (amended): with an empty input mapping, an auto-chained step's
resolved input is exactly the previous completed step's output under
`input_anterior`, its agent name under `agente_anterior`, and the
accumulated-context goal under `objetivo`; every step's resolved input
carries that goal under `objetivo` (first step and chained step alike); and
on a concrete two-specialist sequential run the second specialist's
recorded input contains the first's output and name plus the goal, which
here equals the run's goal.  However, the `objetivo` value is
`userInput.goal` where `userInput` is the spread
`(goal := run.goal) ⊕ run.context`, so a `goal` key in the run's context
overrides the run's goal (see the counterexample): "the run's goal is
present under `objetivo`" only holds when the context has no `goal` key. -/
theorem claimC7_sequential_auto_chain :
    (∀ (ps : PlanStep) (acc : AccumulatedContext) (s1 : Step) (out : JVal),
      ps.inputMapping = [] → acc.completedSteps = [s1] →
      s1.output = some out → out.truthy = true →
      computeStepInput ps acc =
        [("input_anterior", some out),
         ("agente_anterior", some (.str s1.agentName)),
         ("objetivo", jrecGet acc.userInput "goal")]) ∧
    (∀ (ps : PlanStep) (acc : AccumulatedContext),
      ps.inputMapping = [] → acc.completedSteps = [] →
      StepInput.get (computeStepInput ps acc) "objetivo" =
        some (jrecGet acc.userInput "goal")) ∧
    (∀ (ps : PlanStep) (acc : AccumulatedContext) (s1 : Step) (out : JVal),
      ps.inputMapping = [] → acc.completedSteps = [s1] →
      s1.output = some out → out.truthy = true →
      StepInput.get (computeStepInput ps acc) "objetivo" =
        some (jrecGet acc.userInput "goal")) ∧
    c7Run.goal = "g7" ∧
    (runOutcome (executeRun c7Run c7Agents c7Client DEFAULT_CONFIG 10)).map
        (fun o => o.steps.map (fun s => (s.status, s.input))) =
      some [(.completed,
              [("tarefa", some (.str "Executar Alpha")),
               ("objetivo", some (.str "g7"))]),
            (.completed,
              [("input_anterior", some (.obj [("a", .str "va")])),
               ("agente_anterior", some (.str "Alpha")),
               ("objetivo", some (.str "g7"))])] :=
  ⟨fun ps acc s1 out h1 h2 h3 h4 =>
      computeStepInput_auto_chain ps acc s1 out h1 h2 h3 h4,
   fun ps acc h1 h2 => computeStepInput_goal_first ps acc h1 h2,
   fun ps acc s1 out h1 h2 h3 h4 =>
      computeStepInput_goal_chain ps acc s1 out h1 h2 h3 h4,
   rfl, rfl⟩

/-- C7 counterexample: a run whose user context defines `goal := "override"`
resolves every step's `objetivo` to `"override"`, not the run's goal
`"g7"` — the context spread `(goal := run.goal) ⊕ run.context` lets the
context override the goal field. -/
theorem claimC7_counterexample :
    (runOutcome (executeRun c7xRun c7Agents c7Client DEFAULT_CONFIG 10)).map
        (fun o => o.steps.map (fun s => StepInput.get s.input "objetivo")) =
      some [some (some (.str "override")), some (some (.str "override"))] ∧
    c7xRun.goal = "g7" ∧ ("override" : String) ≠ "g7" :=
  ⟨rfl, rfl, by decide⟩

/-- Witness for the amended C7 theorem: its general conjuncts instantiated
at a concrete chained context. -/
theorem claimC7_witness :
    computeStepInput c9bPlanStep
      { userInput := [("goal", .str "gw")],
        completedSteps :=
          [{ id := "p1", agentId := "pa", agentName := "Prev",
             status := .completed, output := some (.obj [("k", .str "v")]) }],
        globalContext := [] } =
      [("input_anterior", some (.obj [("k", .str "v")])),
       ("agente_anterior", some (.str "Prev")),
       ("objetivo", some (.str "gw"))] ∧
    StepInput.get (computeStepInput c9bPlanStep
      { userInput := [("goal", .str "gw")], completedSteps := [],
        globalContext := [] }) "objetivo" = some (some (.str "gw")) :=
  ⟨claimC7_sequential_auto_chain.1 c9bPlanStep _ _ (.obj [("k", .str "v")])
      rfl rfl rfl rfl,
   claimC7_sequential_auto_chain.2.1 c9bPlanStep _ rfl rfl⟩

end NHP
